import Mathlib

/-!
Verification of the wcag-checker dashboard's core logic: the rescan
reconciliation (diff) engine, the multi-strategy analysis fallback pipeline
of the scan orchestrator, and the project-level rescan / results routes.

The definitions below are a shallow embedding of the TypeScript source:

* `src/app/api/scans/route.ts` — `POST` (scan creation / rescan reset),
  `processScan` (background task with strategy fallback), and
  `handleRescanDiff` (the reconciliation engine);
* `src/app/api/projects/[id]/rescan/route.ts` — the project rescan route;
* `src/app/api/projects/[id]/results/route.ts` — the aggregated results
  route (dedup, filter, sort, paginate).

Modelling conventions:

* Database ids (cuid strings) are modelled as `Nat`; timestamps (`Date`)
  as `Nat` epoch values.
* A JavaScript value of an optional string field is `Option (Option String)`:
  `none` is JS `undefined` (absent property), `some none` is `null`,
  `some (some s)` is the string `s`.  A stored (Prisma) column of such a
  field is `Option String` (`none` = SQL NULL; Prisma reads NULL as `null`).
* A JSON value (each `details` field) is modelled by its canonical
  `JSON.stringify` serialization, a `String`.  `JSON.stringify` is injective
  on JSON values (object key order is preserved by JS engines and by the
  serialization), so the source's `JSON.stringify(a) !== JSON.stringify(b)`
  comparisons become plain string disequality, `"null"` standing for the
  JSON/SQL null.  A stored `details` column is a `String`; a fresh result's
  `details` is `Option String` with `none` for JS `undefined`.
* `JSON.stringify(undefined)` is JS `undefined`, which is `===`-equal to
  itself and different from every string; this is exactly `Option.some`
  injectivity plus `none ≠ some s`, so the stringify comparison of an
  optional field is `Option` disequality.
* A JS `Map` is an association list: `set` overwrites the value of an
  existing key in place (keeping its original insertion position) and
  appends unknown keys; iteration is in that order.
-/

/-! ## JSON values (by canonical serialization) and JS helpers -/

/-- Truthiness of a JSON value given by its canonical `JSON.stringify`
serialization: `null`, `false`, `0` and the empty string are falsy, every
other JSON value (including empty arrays and empty objects) is truthy. -/
def jsonTruthy (s : String) : Bool :=
  !(s == "null" || s == "false" || s == "0" || s == "\"\"")

/-- The serialization of the empty JSON object, which
`result.details || {}` substitutes for a missing or falsy `details`. -/
def emptyJsonObject : String := "\x7b\x7d"

/-- Lowercase a string, modelling JS `String.prototype.toLowerCase` on the
ASCII range used by the route's search filter. -/
def lcStr (s : String) : String := ⟨s.data.map Char.toLower⟩

/-- Containment of `needle` in `hay` as a contiguous character sequence,
modelling JS `String.prototype.includes`. -/
def containsSeq (hay needle : List Char) : Bool :=
  match hay with
  | [] => needle.isEmpty
  | _ :: rest => needle.isPrefixOf hay || containsSeq rest needle

/-- JS `hay.includes(needle)` on strings. -/
def strIncl (hay needle : String) : Bool := containsSeq hay.data needle.data

/-- Lexicographic comparison of character lists (true when `a ≤ b`). -/
def lexLe : List Char → List Char → Bool
  | [], _ => true
  | _ :: _, [] => false
  | a :: as, b :: bs => if a = b then lexLe as bs else decide (a < b)

/-- String comparison used for the `url` sort: `a.localeCompare(b) ≤ 0`,
modelled as lexicographic order on the characters. -/
def strLe (a b : String) : Bool := lexLe a.data b.data

/-! ## Data model: persisted and freshly analyzed results -/

/-- A persisted `Result` row (Prisma model `Result`).  `element`, `impact`,
`help` and `elementPath` are nullable columns; `details` holds the
serialization of the stored JSON value (`"null"` for a null column). -/
structure StoredResult where
  id : Nat
  scanId : Nat
  url : String
  message : String
  element : Option String
  severity : String
  impact : Option String
  help : Option String
  tags : List String
  elementPath : Option String
  details : String
  createdAt : Nat
  updatedAt : Nat
deriving DecidableEq

/-- A freshly analyzed result as produced by an analysis strategy, before
persistence.  Optional fields are JS values (`none` = `undefined`,
`some none` = `null`); `details` is `none` when the property is absent. -/
structure NewResult where
  url : String
  message : String
  element : Option (Option String)
  severity : String
  impact : Option (Option String)
  help : Option (Option String)
  tags : List String
  elementPath : Option (Option String)
  details : Option String
  createdAt : Nat
deriving DecidableEq

/-- The identity key of `handleRescanDiff` and of the results route:
`url + "|" + message + "|" + (element || "") + "|" + severity`. -/
def createKey (url message : String) (element : Option String) (severity : String) : String :=
  url ++ "|" ++ message ++ "|" ++ element.getD "" ++ "|" ++ severity

/-- Identity key of a persisted row (`element || ''` collapses NULL and the
empty string). -/
def StoredResult.key (r : StoredResult) : String :=
  createKey r.url r.message r.element r.severity

/-- Identity key of a fresh result (`element || ''` collapses `undefined`,
`null` and the empty string). -/
def NewResult.key (n : NewResult) : String :=
  createKey n.url n.message n.element.join n.severity

/-! ## JS `Map` model -/

/-- `map.set(k, v)`: overwrite the value of an existing key in place,
append a new key at the end. -/
def jsMapSet {α : Type} (m : List (String × α)) (k : String) (v : α) : List (String × α) :=
  if m.any (fun p => p.1 == k) then
    m.map (fun p => if p.1 == k then (k, v) else p)
  else
    m ++ [(k, v)]

/-- `map.has(k)`. -/
def jsMapHasKey {α : Type} (m : List (String × α)) (k : String) : Bool :=
  m.any (fun p => p.1 == k)

/-- `map.get(k)`. -/
def jsMapGet {α : Type} (m : List (String × α)) (k : String) : Option α :=
  (m.find? (fun p => p.1 == k)).map (fun p => p.2)

/-- Build a key map from a list the way the source does with
`forEach(map.set(createKey(r), r))`: the last element with a given key
wins, keys are ordered by first occurrence. -/
def buildKeyMap {α : Type} (key : α → String) (xs : List α) : List (String × α) :=
  xs.foldl (fun m x => jsMapSet m (key x) x) []

/-! ## Reconciliation: diff computation -/

/-- The per-field update patch built by `handleRescanDiff` for a matched
pair: a field is present (`some v`) exactly when its stringified values
differ, and then carries the fresh JS value `v` verbatim
(`updates[field] = newResult[field]`). -/
structure ResultPatch where
  help : Option (Option (Option String))
  impact : Option (Option (Option String))
  tags : Option (List String)
  elementPath : Option (Option (Option String))
  details : Option (Option String)
deriving DecidableEq

/-- The stringify comparison of an optional string field: the stored column
(read back as `null` or a string) differs from the fresh JS value unless
the fresh value is the defined image of the stored one. -/
def diffOptField (stored : Option String) (fresh : Option (Option String)) : Bool :=
  fresh != some stored

/-- The stringify comparison of the `details` field. -/
def diffDetails (stored : String) (fresh : Option String) : Bool :=
  fresh != some stored

/-- The patch `handleRescanDiff` computes for an existing/fresh pair with
equal identity keys, over the checked fields
`['help', 'impact', 'tags', 'elementPath', 'details']`. -/
def computePatch (ex : StoredResult) (nw : NewResult) : ResultPatch where
  help := if diffOptField ex.help nw.help then some nw.help else none
  impact := if diffOptField ex.impact nw.impact then some nw.impact else none
  tags := if ex.tags != nw.tags then some nw.tags else none
  elementPath := if diffOptField ex.elementPath nw.elementPath then some nw.elementPath else none
  details := if diffDetails ex.details nw.details then some nw.details else none

/-- `hasChanges` is false exactly when no checked field made it into the
patch. -/
def ResultPatch.isUnchanged (p : ResultPatch) : Bool :=
  p.help.isNone && p.impact.isNone && p.tags.isNone && p.elementPath.isNone && p.details.isNone

/-- The three operation sets computed by `handleRescanDiff`. -/
structure RescanDiff where
  toAdd : List NewResult
  toRemove : List Nat
  toUpdate : List (Nat × ResultPatch)
deriving DecidableEq

/-- The diff computation of `handleRescanDiff`: build the two key maps,
then collect additions (fresh keys absent from the existing map), removals
(ids of existing-map entries whose key is absent from the fresh map) and
updates (matched keys whose checked fields changed). -/
def computeRescanDiff (existing : List StoredResult) (newResults : List NewResult) : RescanDiff :=
  let existingMap := buildKeyMap StoredResult.key existing
  let newMap := buildKeyMap NewResult.key newResults
  { toAdd := newMap.filterMap (fun p =>
      if jsMapHasKey existingMap p.1 then none else some p.2)
    toRemove := existingMap.filterMap (fun p =>
      if jsMapHasKey newMap p.1 then none else some p.2.id)
    toUpdate := existingMap.filterMap (fun p =>
      match jsMapGet newMap p.1 with
      | none => none
      | some nw =>
        let patch := computePatch p.2 nw
        if patch.isUnchanged then none else some (p.2.id, patch)) }

/-! ## Reconciliation: transactional apply -/

/-- The row inserted for a fresh result, shared by the `createMany` calls of
`processScan` (fresh scan) and of the rescan transaction: optional JS values
collapse to nullable columns, `details || {}` substitutes the empty object
for a missing or falsy `details`, `createdAt` is taken from the fresh
result, and `updatedAt` is set by the store to the current time. -/
def insertRowFromNew (scanId idv now : Nat) (n : NewResult) : StoredResult where
  id := idv
  scanId := scanId
  url := n.url
  message := n.message
  element := n.element.join
  severity := n.severity
  impact := n.impact.join
  help := n.help.join
  tags := n.tags
  elementPath := n.elementPath.join
  details :=
    match n.details with
    | some s => if jsonTruthy s then s else emptyJsonObject
    | none => emptyJsonObject
  createdAt := n.createdAt
  updatedAt := now

/-- Bulk insertion of fresh results with sequentially allocated ids. -/
def insertRows (scanId nextId now : Nat) : List NewResult → List StoredResult
  | [] => []
  | n :: rest => insertRowFromNew scanId nextId now n :: insertRows scanId (nextId + 1) now rest

/-- Application of one update patch to a row (`tx.result.update`): a present
field with a defined JS value is written (a `null` payload clears the
column), a present field whose JS value is `undefined` is ignored by the
store, an absent field is untouched; `updatedAt` is bumped. -/
def applyPatch (now : Nat) (r : StoredResult) (p : ResultPatch) : StoredResult where
  id := r.id
  scanId := r.scanId
  url := r.url
  message := r.message
  element := r.element
  severity := r.severity
  impact :=
    match p.impact with
    | some (some v) => v
    | _ => r.impact
  help :=
    match p.help with
    | some (some v) => v
    | _ => r.help
  tags :=
    match p.tags with
    | some v => v
    | none => r.tags
  elementPath :=
    match p.elementPath with
    | some (some v) => v
    | _ => r.elementPath
  details :=
    match p.details with
    | some (some v) => v
    | _ => r.details
  createdAt := r.createdAt
  updatedAt := now

/-- Sequential application of the update list; each `tx.result.update`
targets the row with the patched id. -/
def applyUpdatesById (now : Nat) (ups : List (Nat × ResultPatch)) (rows : List StoredResult) : List StoredResult :=
  ups.foldl (fun acc up =>
    acc.map (fun r => if r.id == up.1 then applyPatch now r up.2 else r)) rows

/-- The body of the rescan transaction: deletions, then insertions, then
update patches, in the order of `handleRescanDiff`. -/
def applyRescanDiff (scanId now nextId : Nat) (rows : List StoredResult) (d : RescanDiff) : List StoredResult :=
  let afterRemove := rows.filter (fun r => !d.toRemove.contains r.id)
  let afterInsert := afterRemove ++ insertRows scanId nextId now d.toAdd
  applyUpdatesById now d.toUpdate afterInsert

/-- `handleRescanDiff`: load the existing rows, compute the diff, and apply
it inside one `prisma.$transaction`; a failure anywhere in the persistence
layer (here the oracle `txFail`) aborts the whole transaction — the store's
documented all-or-nothing contract, the gateway being an external
collaborator — leaving the rows untouched, and is rethrown to the caller. -/
def handleRescanDiff (scanId now nextId : Nat) (rows : List StoredResult)
    (txFail : Option String) (newResults : List NewResult) : Except String (List StoredResult) :=
  let d := computeRescanDiff rows newResults
  match txFail with
  | some msg => .error msg
  | none => .ok (applyRescanDiff scanId now nextId rows d)

/-! ## Scan orchestrator -/

/-- A `Scan` row (Prisma model `Scan`). -/
structure Scan where
  id : Nat
  projectId : Nat
  url : String
  status : String
  startedAt : Option Nat
  completedAt : Option Nat
  error : Option String
  totalIssues : Option Nat
  criticalIssues : Option Nat
  seriousIssues : Option Nat
  moderateIssues : Option Nat
  minorIssues : Option Nat
  analysisMethod : Option String
  createdAt : Nat
deriving DecidableEq

/-- The summary an analysis strategy returns alongside its results. -/
structure Summary where
  critical : Nat
  serious : Nat
  moderate : Nat
  minor : Nat
  total : Nat
deriving DecidableEq

/-- The value of a successful `analyzeAccessibility` call. -/
structure AnalysisPayload where
  results : List NewResult
  summary : Summary
deriving DecidableEq

instance {ε α : Type} [DecidableEq ε] [DecidableEq α] : DecidableEq (Except ε α) := fun a b =>
  match a, b with
  | .ok x, .ok y =>
    if h : x = y then isTrue (by rw [h]) else isFalse (by intro c; cases c; exact h rfl)
  | .error x, .error y =>
    if h : x = y then isTrue (by rw [h]) else isFalse (by intro c; cases c; exact h rfl)
  | .ok _, .error _ => isFalse (by intro c; cases c)
  | .error _, .ok _ => isFalse (by intro c; cases c)

/-- The oracle for one `processScan` run: the outcome each analysis
strategy would produce for the target url, and whether the result
persistence step (the `createMany` of a fresh scan, or the lookup and
transaction of `handleRescanDiff`) throws. -/
structure ScanEnv where
  simpleOutcome : Except String AnalysisPayload
  playwrightOutcome : Except String AnalysisPayload
  htmlOutcome : Except String AnalysisPayload
  persistFail : Option String
deriving DecidableEq

/-- The strategy fallback chain of `processScan`: Simple Checker, then
Playwright, then the HTML validator; the first success wins together with
its method name, and exhaustion raises the concatenated failure message. -/
def runAnalysis (env : ScanEnv) : Except String (AnalysisPayload × String) :=
  match env.simpleOutcome with
  | .ok p => .ok (p, "simple")
  | .error e1 =>
    match env.playwrightOutcome with
    | .ok p => .ok (p, "playwright")
    | .error e2 =>
      match env.htmlOutcome with
      | .ok p => .ok (p, "html-validator")
      | .error e3 =>
        .error ("All analysis methods failed: Simple: " ++ e1 ++
          ", Playwright: " ++ e2 ++ ", HTML: " ++ e3)

/-- The scan record and its result rows, the slice of the store one
`processScan` run touches. -/
structure ScanDb where
  scan : Scan
  results : List StoredResult
deriving DecidableEq

/-- The failure update of `processScan`'s catch block: status, completion
time and error message are written, the summary counters are left as they
are. -/
def markScanFailed (s : Scan) (now : Nat) (msg : String) : Scan :=
  { s with status := "failed", completedAt := some now, error := some msg }

/-- The background task `processScan`: run the fallback chain, persist the
results (bulk insert for a fresh scan — skipped when the result list is
empty — or `handleRescanDiff` for a rescan), then mark the scan completed
with the summary counters and the winning method; any raised error is
caught and the scan marked failed with its message. -/
def processScan (db : ScanDb) (env : ScanEnv) (isRescan : Bool) (now nextId : Nat) : ScanDb :=
  match runAnalysis env with
  | .error msg => { db with scan := markScanFailed db.scan now msg }
  | .ok (payload, method) =>
    let persisted : Except String (List StoredResult) :=
      if isRescan then
        handleRescanDiff db.scan.id now nextId db.results env.persistFail payload.results
      else if payload.results.isEmpty then
        .ok db.results
      else
        match env.persistFail with
        | some msg => .error msg
        | none => .ok (db.results ++ insertRows db.scan.id nextId now payload.results)
    match persisted with
    | .error msg => { db with scan := markScanFailed db.scan now msg }
    | .ok rows =>
      { scan := { db.scan with
          status := "completed"
          completedAt := some now
          totalIssues := some payload.summary.total
          criticalIssues := some payload.summary.critical
          seriousIssues := some payload.summary.serious
          moderateIssues := some payload.summary.moderate
          minorIssues := some payload.summary.minor
          analysisMethod := some method }
        results := rows }

/-! ## POST /scans -/

/-- Compliance options as passed through the scan routes. -/
structure ComplianceOptions where
  wcagLevel : String
  section508 : Bool
  bestPractices : Bool
  experimental : Bool
deriving DecidableEq

/-- The default compliance options substituted for a missing body field. -/
def defaultComplianceOptions : ComplianceOptions :=
  { wcagLevel := "aa", section508 := false, bestPractices := true, experimental := false }

/-- The JSON body of `POST /scans`; `none` models an absent property. -/
structure PostScansBody where
  projectId : Option Nat
  url : Option String
  complianceOptions : Option ComplianceOptions
  scanId : Option Nat
deriving DecidableEq

/-- The arguments of the detached `processScan` call a request dispatches. -/
structure TaskDispatch where
  scanId : Nat
  url : String
  compliance : ComplianceOptions
  isRescan : Bool
deriving DecidableEq

/-- The HTTP outcome of `POST /scans`. -/
inductive PostScansOutcome where
  | badRequest
  | serverError
  | ok (scan : Scan)
deriving DecidableEq

/-- The rescan reset of `POST /scans`: status back to `in_progress`, the
target url overwritten, `startedAt` set to now, and `completedAt`, `error`,
the five issue counters and `analysisMethod` all cleared. -/
def resetScanForRescan (s : Scan) (url : String) (now : Nat) : Scan :=
  { s with
    status := "in_progress"
    url := url
    startedAt := some now
    completedAt := none
    error := none
    totalIssues := none
    criticalIssues := none
    seriousIssues := none
    moderateIssues := none
    minorIssues := none
    analysisMethod := none }

/-- JS falsiness of the body's `url` field: absent or empty. -/
def urlFalsy (u : Option String) : Bool :=
  match u with
  | none => true
  | some s => s == ""

/-- `POST /scans`: validate the body, reset the existing scan (when
`scanId` is given) or create a fresh `in_progress` scan, dispatch the
background task, and return the scan record immediately.  Produces the
response, the updated scan table and the dispatched task, if any.  An
update of an unknown `scanId` throws in the store and surfaces as the
route's 500 catch-all. -/
def postScans (scans : List Scan) (body : PostScansBody) (now newId : Nat) :
    PostScansOutcome × List Scan × Option TaskDispatch :=
  if body.projectId.isNone || urlFalsy body.url then
    (.badRequest, scans, none)
  else
    let url := body.url.getD ""
    let compliance := body.complianceOptions.getD defaultComplianceOptions
    match body.scanId with
    | some sid =>
      match scans.find? (fun s => s.id == sid) with
      | none => (.serverError, scans, none)
      | some s =>
        let s' := resetScanForRescan s url now
        (.ok s', scans.map (fun t => if t.id == sid then s' else t),
          some { scanId := sid, url := url, compliance := compliance, isRescan := true })
    | none =>
      let s' : Scan :=
        { id := newId
          projectId := body.projectId.getD 0
          url := url
          status := "in_progress"
          startedAt := some now
          completedAt := none
          error := none
          totalIssues := none
          criticalIssues := none
          seriousIssues := none
          moderateIssues := none
          minorIssues := none
          analysisMethod := none
          createdAt := now }
      (.ok s', scans ++ [s'],
        some { scanId := newId, url := url, compliance := compliance, isRescan := false })

/-! ## POST /projects/[id]/rescan -/

/-- A `Url` row of a project. -/
structure UrlRecord where
  id : Nat
  url : String
deriving DecidableEq

/-- A project as loaded by the rescan route, with its urls and scans. -/
structure Project where
  id : Nat
  urls : List UrlRecord
  scans : List Scan
  complianceOptions : Option ComplianceOptions
deriving DecidableEq

/-- One entry of the rescan route's response body. -/
structure RescanScanInfo where
  id : Nat
  url : String
  status : String
deriving DecidableEq

/-- The HTTP outcome of `POST /projects/[id]/rescan`. -/
inductive RescanOutcome where
  | notFound
  | noUrls
  | conflict
  | started (info : List RescanScanInfo)
deriving DecidableEq

/-- The per-url loop of the rescan route: find the latest scan for the url
in the (creation-time descending) scan list, reuse its id as a rescan, or
create a fresh pending scan; either way dispatch a `POST /scans` body for
the url.  Returns the response entries, the created scans and the
dispatched bodies. -/
def rescanSteps (projId : Nat) (co : ComplianceOptions) (sorted : List Scan) (now : Nat) :
    List UrlRecord → Nat → List RescanScanInfo × List Scan × List PostScansBody
  | [], _ => ([], [], [])
  | u :: rest, nid =>
    match sorted.find? (fun s => s.url == u.url) with
    | some s =>
      let r := rescanSteps projId co sorted now rest nid
      ({ id := s.id, url := u.url, status := "rescanning" } :: r.1, r.2.1,
        { projectId := some projId, url := some u.url,
          complianceOptions := some co, scanId := some s.id } :: r.2.2)
    | none =>
      let ns : Scan :=
        { id := nid, projectId := projId, url := u.url, status := "pending"
          startedAt := none, completedAt := none, error := none
          totalIssues := none, criticalIssues := none, seriousIssues := none
          moderateIssues := none, minorIssues := none, analysisMethod := none
          createdAt := now }
      let r := rescanSteps projId co sorted now rest (nid + 1)
      ({ id := nid, url := u.url, status := "pending" } :: r.1, ns :: r.2.1,
        { projectId := some projId, url := some u.url,
          complianceOptions := some co, scanId := none } :: r.2.2)

/-- `POST /projects/[id]/rescan`: 404 for an unknown project, 400 for a
project without urls, 409 when any of the project's scans is pending or in
progress, otherwise find-or-create a scan per url and trigger the analysis
path for each. -/
def rescanProject (p : Option Project) (nextId now : Nat) :
    RescanOutcome × List Scan × List PostScansBody :=
  match p with
  | none => (.notFound, [], [])
  | some proj =>
    if proj.urls.isEmpty then (.noUrls, [], [])
    else if proj.scans.any (fun s => s.status == "pending" || s.status == "in_progress") then
      (.conflict, [], [])
    else
      let sorted := List.insertionSort
        (fun a b : Scan => b.createdAt ≤ a.createdAt) proj.scans
      let r := rescanSteps proj.id (proj.complianceOptions.getD defaultComplianceOptions)
        sorted now proj.urls nextId
      (.started r.1, r.2.1, r.2.2)

/-! ## GET /projects/[id]/results -/

/-- A scan row together with its result rows, as returned by the route's
`findMany` with `include: results`. -/
structure ScanRow where
  scan : Scan
  results : List StoredResult
deriving DecidableEq

/-- The response body of the results route.  The per-result scan annotation
added just before responding is presentation and is omitted. -/
structure ResultsResponse where
  results : List StoredResult
  summary : Summary
  total : Nat
  page : Nat
  pageSize : Nat
  totalPages : Nat
deriving DecidableEq

/-- The completed scans of the project, newest first (the route's
`findMany` filter and `orderBy createdAt desc`). -/
def completedScanRows (rows : List ScanRow) (pid : Nat) : List ScanRow :=
  List.insertionSort (fun a b : ScanRow => b.scan.createdAt ≤ a.scan.createdAt)
    (rows.filter (fun row => row.scan.projectId == pid && row.scan.status == "completed"))

/-- All results of the project's completed scans, in scan order. -/
def allProjectResults (rows : List ScanRow) (pid : Nat) : List StoredResult :=
  ((completedScanRows rows pid).map (fun row => row.results)).flatten

/-- One step of the route's deduplication map: keep the incumbent unless
the incoming result's `createdAt` is strictly more recent. -/
def dedupStep (m : List (String × StoredResult)) (r : StoredResult) :
    List (String × StoredResult) :=
  match jsMapGet m r.key with
  | none => m ++ [(r.key, r)]
  | some prev => if prev.createdAt < r.createdAt then jsMapSet m r.key r else m

/-- Deduplication by identity key keeping the most recent result for each
key (`Array.from(map.values())` preserves first-insertion order). -/
def dedupByKey (rs : List StoredResult) : List StoredResult :=
  (rs.foldl dedupStep []).map (fun p => p.2)

/-- The search filter: case-insensitive containment in the message, url,
element or help text (falsy element/help short-circuit to a miss). -/
def passesSearch (searchLower : String) (r : StoredResult) : Bool :=
  strIncl (lcStr r.message) searchLower ||
  strIncl (lcStr r.url) searchLower ||
  (match r.element with
   | some e => !(e == "") && strIncl (lcStr e) searchLower
   | none => false) ||
  (match r.help with
   | some h => !(h == "") && strIncl (lcStr h) searchLower
   | none => false)

/-- The three sequential filters of the results route. -/
def filteredProjectResults (rows : List ScanRow) (pid : Nat)
    (search : String) (severityFilters complianceFilters : List String) : List StoredResult :=
  let u0 := dedupByKey (allProjectResults rows pid)
  let u1 := if search == "" then u0 else u0.filter (passesSearch (lcStr search))
  let u2 := if severityFilters.isEmpty then u1
    else u1.filter (fun r => severityFilters.contains r.severity)
  if complianceFilters.isEmpty then u2
  else u2.filter (fun r => r.tags.any (fun t => complianceFilters.contains t))

/-- The numeric severity rank of the sort (`severityOrder[s] || 0`). -/
def severityRank (s : String) : Nat :=
  if s == "critical" then 4
  else if s == "serious" then 3
  else if s == "moderate" then 2
  else if s == "minor" then 1
  else 0

/-- The sort comparator as an ordering relation (`a` may precede `b`):
severity rank descending then recency for `sortBy=severity`, url ascending
for `sortBy=url`, recency descending otherwise (including `date`).  JS
`Array.prototype.sort` is stable; the model sorts with a stable insertion
sort. -/
def resultLe (sortBy : String) (a b : StoredResult) : Bool :=
  if sortBy == "severity" then
    if severityRank a.severity == severityRank b.severity then b.createdAt ≤ a.createdAt
    else decide (severityRank b.severity < severityRank a.severity)
  else if sortBy == "url" then strLe a.url b.url
  else b.createdAt ≤ a.createdAt

/-- The filtered results in sorted order. -/
def sortedProjectResults (rows : List ScanRow) (pid : Nat) (sortBy : String)
    (search : String) (severityFilters complianceFilters : List String) : List StoredResult :=
  List.insertionSort (fun a b => resultLe sortBy a b = true)
    (filteredProjectResults rows pid search severityFilters complianceFilters)

/-- `GET /projects/[id]/results`: aggregate the completed scans' results,
deduplicate, filter, sort, paginate, and report the summary computed from
the filtered set. -/
def getProjectResults (rows : List ScanRow) (pid : Nat) (page pageSize : Nat)
    (sortBy search : String) (severityFilters complianceFilters : List String) : ResultsResponse :=
  if (completedScanRows rows pid).isEmpty then
    { results := [], summary := ⟨0, 0, 0, 0, 0⟩, total := 0
      page := page, pageSize := pageSize, totalPages := 0 }
  else
    let filtered := filteredProjectResults rows pid search severityFilters complianceFilters
    let sorted := sortedProjectResults rows pid sortBy search severityFilters complianceFilters
    let total := filtered.length
    { results := (sorted.drop ((page - 1) * pageSize)).take pageSize
      summary :=
        { critical := (filtered.filter (fun r => r.severity == "critical")).length
          serious := (filtered.filter (fun r => r.severity == "serious")).length
          moderate := (filtered.filter (fun r => r.severity == "moderate")).length
          minor := (filtered.filter (fun r => r.severity == "minor")).length
          total := total }
      total := total
      page := page
      pageSize := pageSize
      totalPages := (total + pageSize - 1) / pageSize }

/-! ## Spec-side reconciliation (claim wording)

The following definitions follow the specification's description of the
diff — membership tested directly against the full lists — to be compared
with the source translation `computeRescanDiff`. -/

/-- Spec wording: the fresh results whose identity key matches no existing
result. -/
def specToAdd (existing : List StoredResult) (newResults : List NewResult) : List NewResult :=
  newResults.filter (fun n => !existing.any (fun e => e.key == n.key))

/-- Spec wording: the ids of the existing results whose identity key
matches no fresh result. -/
def specToRemove (existing : List StoredResult) (newResults : List NewResult) : List Nat :=
  (existing.filter (fun e => !newResults.any (fun n => n.key == e.key))).map (fun e => e.id)

/-- Spec wording: for each existing result matched by key, the patch of
changed fields, with no entry when all five checked fields are equal. -/
def specToUpdate (existing : List StoredResult) (newResults : List NewResult) :
    List (Nat × ResultPatch) :=
  existing.filterMap (fun e =>
    match newResults.find? (fun n => n.key == e.key) with
    | none => none
    | some n =>
      let patch := computePatch e n
      if patch.isUnchanged then none else some (e.id, patch))

/-! ## Lemmas about the JS map model -/

lemma getLast?_cons {α : Type} (a : α) (l : List α) :
    (a :: l).getLast? = l.getLast?.or (some a) := by
  cases l with
  | nil => rfl
  | cons b t =>
    rw [List.getLast?_cons_cons]
    cases h : (b :: t).getLast? with
    | none => simp [List.getLast?] at h
    | some c => rfl

lemma getLast?_mem {α : Type} {l : List α} {a : α} (h : l.getLast? = some a) : a ∈ l := by
  induction l with
  | nil => simp [List.getLast?] at h
  | cons b t ih =>
    rw [getLast?_cons] at h
    cases ht : t.getLast? with
    | none => rw [ht] at h; simp [Option.none_or] at h; simp [h]
    | some c =>
      rw [ht] at h
      simp [Option.or] at h
      exact List.mem_cons_of_mem _ (ih (ht.trans (congrArg some h)))



lemma bool_eq_false {b : Bool} (h : ¬b = true) : b = false := by
  cases b
  · rfl
  · exact absurd rfl h

lemma find?_replaceKey_same {α : Type} (m : List (String × α)) (k : String) (v : α) :
    (m.map (fun p => if p.1 == k then (k, v) else p)).find? (fun p => p.1 == k)
      = (m.find? (fun p => p.1 == k)).map (fun _ => (k, v)) := by
  rw [List.find?_map]
  have hpred : ((fun p : String × α => p.1 == k) ∘
      (fun p : String × α => if p.1 == k then (k, v) else p)) = fun p => p.1 == k := by
    funext p
    by_cases hp : (p.1 == k) = true
    · have hp' : p.1 = k := by simpa using hp
      simp [hp']
    · have hp' : ¬p.1 = k := by simpa using hp
      simp [hp']
  rw [hpred]
  cases hf : m.find? (fun p => p.1 == k) with
  | none => rfl
  | some q =>
    have hq : (q.1 == k) = true := by simpa using List.find?_some hf
    have hq' : q.1 = k := by simpa using hq
    simp [hq']

lemma find?_replaceKey_ne {α : Type} (m : List (String × α)) (k k' : String) (v : α)
    (h : k' ≠ k) :
    (m.map (fun p => if p.1 == k then (k, v) else p)).find? (fun p => p.1 == k')
      = m.find? (fun p => p.1 == k') := by
  rw [List.find?_map]
  have hkk : (k == k') = false := by simpa using fun hc : k = k' => h hc.symm
  have hpred : ((fun p : String × α => p.1 == k') ∘
      (fun p : String × α => if p.1 == k then (k, v) else p)) = fun p => p.1 == k' := by
    funext p
    by_cases hp : (p.1 == k) = true
    · have hp' : p.1 = k := by simpa using hp
      have : ¬k = k' := fun hc => h hc.symm
      simp [hp', this]
    · have hp' : ¬p.1 = k := by simpa using hp
      simp [hp']
  rw [hpred]
  cases hf : m.find? (fun p => p.1 == k') with
  | none => rfl
  | some q =>
    have hq : (q.1 == k') = true := by simpa using List.find?_some hf
    have hq' : q.1 = k' := by simpa using hq
    have hne : ¬q.1 = k := by simp [hq']; exact fun hc => h hc
    simp [hne]

lemma jsMapGet_jsMapSet {α : Type} (m : List (String × α)) (k k' : String) (v : α) :
    jsMapGet (jsMapSet m k v) k' = if k' = k then some v else jsMapGet m k' := by
  unfold jsMapSet jsMapGet
  by_cases hm : m.any (fun p => p.1 == k)
  · rw [if_pos hm]
    by_cases hk : k' = k
    · subst hk
      rw [find?_replaceKey_same, if_pos rfl]
      have hs : (m.find? (fun p => p.1 == k')).isSome := by
        rw [List.find?_isSome]
        exact List.any_eq_true.mp hm
      cases hfind : m.find? (fun p => p.1 == k') with
      | none => rw [hfind] at hs; simp at hs
      | some q => simp
    · rw [find?_replaceKey_ne _ _ _ _ hk, if_neg hk]
  · rw [if_neg hm, List.find?_append]
    by_cases hk : k' = k
    · subst hk
      have hnone : m.find? (fun p => p.1 == k') = none :=
        List.find?_eq_none.mpr (fun p hp hc => hm (List.any_eq_true.mpr ⟨p, hp, hc⟩))
      simp [hnone, List.find?_cons]
    · have h1 : List.find? (fun p => p.1 == k') [(k, v)] = none := by
        have : (k == k') = false := by simpa using fun hc : k = k' => hk hc.symm
        simp [List.find?_cons, this]
      rw [h1, Option.or_none, if_neg hk]

lemma jsMapHasKey_eq_isSome {α : Type} (m : List (String × α)) (k : String) :
    jsMapHasKey m k = (jsMapGet m k).isSome := by
  unfold jsMapHasKey jsMapGet
  by_cases h : m.any (fun p => p.1 == k)
  · rw [h]
    have hs : (m.find? (fun p => p.1 == k)).isSome := by
      rw [List.find?_isSome]; exact List.any_eq_true.mp h
    cases hfind : m.find? (fun p => p.1 == k) with
    | none => rw [hfind] at hs; simp at hs
    | some q => simp
  · rw [bool_eq_false h]
    have hnone : m.find? (fun p => p.1 == k) = none :=
      List.find?_eq_none.mpr (fun p hp hc => h (List.any_eq_true.mpr ⟨p, hp, hc⟩))
    simp [hnone]

/-- The value stored under `k` after the source's `forEach(set)` loop is the
last list element whose key is `k`. -/
lemma jsMapGet_foldl {α : Type} (key : α → String) (xs : List α)
    (m : List (String × α)) (k : String) :
    jsMapGet (xs.foldl (fun m x => jsMapSet m (key x) x) m) k
      = ((xs.filter (fun x => key x == k)).getLast?).or (jsMapGet m k) := by
  induction xs generalizing m with
  | nil => simp [List.filter, Option.none_or]
  | cons x t ih =>
    rw [List.foldl_cons, ih]
    by_cases hx : key x = k
    · have hx' : (key x == k) = true := by simpa using hx
      rw [List.filter_cons_of_pos (by simpa using hx'), getLast?_cons,
        jsMapGet_jsMapSet _ _ _ _, if_pos hx.symm, Option.or_assoc]
      simp [Option.or]
    · have hx' : (key x == k) = false := by simpa using hx
      rw [List.filter_cons_of_neg (by simp [hx']),
        jsMapGet_jsMapSet _ _ _ _, if_neg (fun hc : k = key x => hx hc.symm)]

/-- `map.get` on the built key map returns the last element with that key. -/
lemma buildKeyMap_get {α : Type} (key : α → String) (xs : List α) (k : String) :
    jsMapGet (buildKeyMap key xs) k = (xs.filter (fun x => key x == k)).getLast? := by
  unfold buildKeyMap
  rw [jsMapGet_foldl]
  simp [jsMapGet, List.find?, Option.or_none]

/-- `map.has` on the built key map tests whether any element has that key. -/
lemma buildKeyMap_hasKey {α : Type} (key : α → String) (xs : List α) (k : String) :
    jsMapHasKey (buildKeyMap key xs) k = xs.any (fun x => key x == k) := by
  rw [jsMapHasKey_eq_isSome, buildKeyMap_get]
  by_cases h : xs.any (fun x => key x == k)
  · rw [h]
    obtain ⟨x, hx, hxk⟩ := List.any_eq_true.mp h
    have : (xs.filter (fun x => key x == k)) ≠ [] := by
      intro hc
      have := List.filter_eq_nil_iff.mp hc x hx
      exact this hxk
    cases hl : (xs.filter (fun x => key x == k)).getLast? with
    | none => exact absurd (List.getLast?_eq_none_iff.mp hl) this
    | some q => simp
  · have h' : xs.any (fun x => key x == k) = false := by simpa using h
    rw [h']
    have : xs.filter (fun x => key x == k) = [] :=
      List.filter_eq_nil_iff.mpr (fun x hx hc => h (List.any_eq_true.mpr ⟨x, hx, hc⟩))
    simp [this]

lemma jsMapSet_mem {α : Type} {m : List (String × α)} {k : String} {v : α}
    {q : String × α} (h : q ∈ jsMapSet m k v) : q ∈ m ∨ q = (k, v) := by
  unfold jsMapSet at h
  by_cases hm : m.any (fun p => p.1 == k)
  · rw [if_pos hm] at h
    obtain ⟨p, hp, hpq⟩ := List.mem_map.mp h
    by_cases hc : (p.1 == k) = true
    · right; rw [if_pos hc] at hpq; exact hpq.symm
    · left; rw [if_neg hc] at hpq; exact hpq ▸ hp
  · rw [if_neg hm] at h
    rcases List.mem_append.mp h with h1 | h2
    · exact Or.inl h1
    · exact Or.inr (List.mem_singleton.mp h2)

/-- Every entry of the built key map pairs an element of the list with its
own key. -/
lemma buildKeyMap_mem {α : Type} (key : α → String) (xs : List α) :
    ∀ p ∈ buildKeyMap key xs, p.1 = key p.2 ∧ p.2 ∈ xs := by
  unfold buildKeyMap
  suffices h : ∀ (m : List (String × α)), ∀ p ∈ xs.foldl (fun m x => jsMapSet m (key x) x) m,
      p ∈ m ∨ (p.1 = key p.2 ∧ p.2 ∈ xs) by
    intro p hp
    rcases h [] p hp with h1 | h2
    · simp at h1
    · exact h2
  induction xs with
  | nil => intro m p hp; exact Or.inl hp
  | cons x t ih =>
    intro m p hp
    rw [List.foldl_cons] at hp
    rcases ih (jsMapSet m (key x) x) p hp with h1 | h2
    · rcases jsMapSet_mem h1 with h3 | h4
      · exact Or.inl h3
      · exact Or.inr (by rw [h4]; exact ⟨rfl, List.mem_cons_self x t⟩)
    · exact Or.inr ⟨h2.1, List.mem_cons_of_mem x h2.2⟩

lemma jsMapSet_keys {α : Type} (m : List (String × α)) (k : String) (v : α) :
    (jsMapSet m k v).map Prod.fst
      = if m.any (fun p => p.1 == k) then m.map Prod.fst else m.map Prod.fst ++ [k] := by
  unfold jsMapSet
  by_cases hm : m.any (fun p => p.1 == k)
  · rw [if_pos hm, if_pos hm, List.map_map]
    apply List.map_congr_left
    intro p _
    by_cases hp : (p.1 == k) = true
    · have : p.1 = k := by simpa using hp
      simp [hp, this]
    · have hp' : ¬p.1 = k := by simpa using hp
      simp [hp, hp']
  · rw [if_neg hm, if_neg hm, List.map_append]
    rfl

/-- The keys of the built key map are pairwise distinct. -/
lemma buildKeyMap_keys_nodup {α : Type} (key : α → String) (xs : List α) :
    ((buildKeyMap key xs).map Prod.fst).Nodup := by
  unfold buildKeyMap
  suffices h : ∀ (m : List (String × α)), (m.map Prod.fst).Nodup →
      ((xs.foldl (fun m x => jsMapSet m (key x) x) m).map Prod.fst).Nodup by
    exact h [] List.nodup_nil
  induction xs with
  | nil => intro m hm; exact hm
  | cons x t ih =>
    intro m hm
    rw [List.foldl_cons]
    apply ih
    rw [jsMapSet_keys]
    by_cases hc : m.any (fun p => p.1 == key x)
    · rw [if_pos hc]; exact hm
    · rw [if_neg hc]
      apply List.Nodup.append hm (List.nodup_singleton _)
      intro a ha hb
      rw [List.mem_singleton] at hb
      subst hb
      obtain ⟨p, hp, hpk⟩ := List.mem_map.mp ha
      exact hc (List.any_eq_true.mpr ⟨p, hp, by simp [hpk]⟩)

/-- In a map with pairwise-distinct keys, `get` on an entry's key returns
that entry's value. -/
lemma jsMapGet_of_mem_nodup {α : Type} {m : List (String × α)}
    (hnd : (m.map Prod.fst).Nodup) {p : String × α} (hp : p ∈ m) :
    jsMapGet m p.1 = some p.2 := by
  induction m with
  | nil => simp at hp
  | cons q t ih =>
    rw [List.map_cons] at hnd
    rcases List.mem_cons.mp hp with h1 | h2
    · subst h1
      unfold jsMapGet
      rw [List.find?_cons_of_pos _ (by simp)]
      rfl
    · have hq : q.1 ≠ p.1 := by
        intro hc
        exact (List.nodup_cons.mp hnd).1 (hc ▸ List.mem_map.mpr ⟨p, h2, rfl⟩)
      unfold jsMapGet
      rw [List.find?_cons_of_neg _ (by simpa using fun hc : q.1 = p.1 => hq hc)]
      exact ih (List.nodup_cons.mp hnd).2 h2

/-- Keys of values produced by a value-projecting `filterMap` form a
sublist of the map's keys. -/
lemma map_key_filterMap_sublist {α β : Type} (keyfn : β → String)
    (m : List (String × α)) (f : String × α → Option β)
    (hf : ∀ p ∈ m, ∀ v, f p = some v → keyfn v = p.1) :
    ((m.filterMap f).map keyfn).Sublist (m.map Prod.fst) := by
  induction m with
  | nil => simp
  | cons p t ih =>
    rw [List.filterMap_cons, List.map_cons]
    have iht := ih (fun q hq v hv => hf q (List.mem_cons_of_mem p hq) v hv)
    cases hfp : f p with
    | none => exact iht.cons _
    | some v =>
      rw [List.map_cons, hf p (List.mem_cons_self p t) v hfp]
      exact iht.cons₂ _

/-- When the list's keys are pairwise distinct, the built key map is just
the list of key/value pairs in order. -/
lemma buildKeyMap_eq_map_of_nodup {α : Type} (key : α → String) (xs : List α)
    (h : (xs.map key).Nodup) :
    buildKeyMap key xs = xs.map (fun x => (key x, x)) := by
  unfold buildKeyMap
  suffices hgen : ∀ (m : List (String × α)), (∀ x ∈ xs, (m.any fun p => p.1 == key x) = false) →
      (xs.map key).Nodup →
      xs.foldl (fun m x => jsMapSet m (key x) x) m = m ++ xs.map (fun x => (key x, x)) by
    simpa using hgen [] (fun x _ => rfl) h
  clear h
  induction xs with
  | nil => intro m _ _; simp
  | cons x t ih =>
    intro m hm hnd
    rw [List.foldl_cons]
    have hset : jsMapSet m (key x) x = m ++ [(key x, x)] := by
      unfold jsMapSet
      rw [if_neg (by simp [hm x (List.mem_cons_self x t)])]
    rw [hset, ih (m ++ [(key x, x)]) ?_ ?_]
    · simp
    · intro y hy
      rw [List.any_append]
      have h1 : (m.any fun p => p.1 == key y) = false := hm y (List.mem_cons_of_mem x hy)
      have h2 : ([(key x, x)].any fun p => p.1 == key y) = false := by
        have : key x ≠ key y := by
          intro hc
          rw [List.map_cons, List.nodup_cons] at hnd
          exact hnd.1 (hc ▸ List.mem_map.mpr ⟨y, hy, rfl⟩)
        simp [this]
      rw [h1, h2]
      rfl
    · exact (List.nodup_cons.mp (by simpa using hnd)).2

lemma filterMap_ite_eq_filter {α : Type} (l : List α) (c : α → Bool) :
    l.filterMap (fun x => if c x then none else some x) = l.filter (fun x => !c x) := by
  induction l with
  | nil => rfl
  | cons x t ih =>
    rw [List.filterMap_cons, List.filter_cons]
    cases hx : c x with
    | true => simpa [hx] using ih
    | false => simpa [hx] using ih

lemma filterMap_ite_eq_filter_map {α β : Type} (l : List α) (c : α → Bool) (f : α → β) :
    l.filterMap (fun x => if c x then none else some (f x)) = (l.filter (fun x => !c x)).map f := by
  induction l with
  | nil => rfl
  | cons x t ih =>
    rw [List.filterMap_cons, List.filter_cons]
    cases hx : c x with
    | true => simpa [hx] using ih
    | false => simpa [hx] using ih

/-- `map.has` over a plain pairing map tests `any` over the list. -/
lemma jsMapHasKey_map_pair {α : Type} (key : α → String) (xs : List α) (k : String) :
    jsMapHasKey (xs.map (fun x => (key x, x))) k = xs.any (fun x => key x == k) := by
  unfold jsMapHasKey
  induction xs with
  | nil => rfl
  | cons x t ih => simp only [List.map_cons, List.any_cons, ih]

/-- `map.get` over a plain pairing map is `find?` over the list. -/
lemma jsMapGet_map_pair {α : Type} (key : α → String) (xs : List α) (k : String) :
    jsMapGet (xs.map (fun x => (key x, x))) k = xs.find? (fun x => key x == k) := by
  unfold jsMapGet
  rw [List.find?_map]
  have : ((fun p : String × α => p.1 == k) ∘ (fun x => (key x, x))) = fun x => key x == k := rfl
  rw [this]
  cases h : xs.find? (fun x => key x == k) with
  | none => rfl
  | some v => rfl

/-! ## Claim C1: the computed diff sets -/

/-- A fresh result used by the C1 counterexample. -/
def c1DupA : NewResult :=
  { url := "https://a.com", message := "Missing alt", element := none,
    severity := "critical", impact := none, help := some (some "first"),
    tags := [], elementPath := none, details := some emptyJsonObject, createdAt := 1 }

/-- A second fresh result with the same identity key as `c1DupA`. -/
def c1DupB : NewResult :=
  { url := "https://a.com", message := "Missing alt", element := none,
    severity := "critical", impact := none, help := some (some "second"),
    tags := [], elementPath := none, details := some emptyJsonObject, createdAt := 2 }

/-- C1 counterexample: with an empty existing set and two fresh results
sharing one identity key, the claimed `toAdd` — all members of the fresh
list whose key has no existing match — has two members, but the code's
`toAdd` keeps only the later duplicate, so the claimed equality fails. -/
theorem c1_counterexample :
    (computeRescanDiff [] [c1DupA, c1DupB]).toAdd ≠ specToAdd [] [c1DupA, c1DupB] ∧
    (computeRescanDiff [] [c1DupA, c1DupB]).toAdd = [c1DupB] ∧
    specToAdd [] [c1DupA, c1DupB] = [c1DupA, c1DupB] := by
  refine ⟨?_, by decide, by decide⟩
  decide

/-- C1 (amended): when the existing rows and the fresh results each carry
pairwise-distinct identity keys, `handleRescanDiff` computes exactly the
claimed sets: `toAdd` the fresh results with no existing key match,
`toRemove` the ids of existing rows with no fresh key match, and
`toUpdate` one patch per matched key containing exactly the changed fields
among help, impact, tags, elementPath, details, no patch being emitted when
all five are equal. -/
lemma computeRescanDiff_eq_spec (S : List StoredResult) (N : List NewResult)
    (hS : (S.map StoredResult.key).Nodup) (hN : (N.map NewResult.key).Nodup) :
    computeRescanDiff S N =
      { toAdd := specToAdd S N
        toRemove := specToRemove S N
        toUpdate := specToUpdate S N } := by
  simp only [computeRescanDiff, specToAdd, specToRemove, specToUpdate]
  rw [buildKeyMap_eq_map_of_nodup _ _ hS, buildKeyMap_eq_map_of_nodup _ _ hN]
  congr 1
  · rw [List.filterMap_map]
    have : ((fun p : String × NewResult =>
        if jsMapHasKey (S.map fun x => (x.key, x)) p.1 then none else some p.2) ∘
        (fun n : NewResult => (n.key, n)))
        = fun n => if S.any (fun e => e.key == n.key) then none else some n := by
      funext n
      simp only [Function.comp_apply, jsMapHasKey_map_pair]
    rw [this, filterMap_ite_eq_filter]
  · rw [List.filterMap_map]
    have : ((fun p : String × StoredResult =>
        if jsMapHasKey (N.map fun x => (x.key, x)) p.1 then none else some p.2.id) ∘
        (fun e : StoredResult => (e.key, e)))
        = fun e => if N.any (fun n => n.key == e.key) then none else some e.id := by
      funext e
      simp only [Function.comp_apply, jsMapHasKey_map_pair]
    rw [this, filterMap_ite_eq_filter_map]
  · rw [List.filterMap_map]
    apply List.filterMap_congr
    intro e _
    simp only [Function.comp_apply, jsMapGet_map_pair]

theorem c1_rescan_diff_sets (S : List StoredResult) (N : List NewResult)
    (hS : (S.map StoredResult.key).Nodup) (hN : (N.map NewResult.key).Nodup) :
    computeRescanDiff S N =
      { toAdd := specToAdd S N
        toRemove := specToRemove S N
        toUpdate := specToUpdate S N } :=
  computeRescanDiff_eq_spec S N hS hN

/-- An existing row used by the C1 witness. -/
def c1WitnessRow : StoredResult :=
  { id := 11, scanId := 7, url := "https://a.com", message := "Missing alt",
    element := some "<img>", severity := "critical", impact := none,
    help := some "old", tags := ["wcag2aa"], elementPath := none,
    details := emptyJsonObject, createdAt := 10, updatedAt := 10 }

/-- A fresh result matching `c1WitnessRow` with a changed help text. -/
def c1WitnessNew1 : NewResult :=
  { url := "https://a.com", message := "Missing alt", element := some (some "<img>"),
    severity := "critical", impact := some none, help := some (some "new"),
    tags := ["wcag2aa"], elementPath := some none, details := some emptyJsonObject,
    createdAt := 20 }

/-- A fresh result with a key unmatched among the existing rows. -/
def c1WitnessNew2 : NewResult :=
  { url := "https://a.com", message := "Low contrast", element := some (some "<p>"),
    severity := "moderate", impact := some none, help := some none,
    tags := ["wcag2aa"], elementPath := some none, details := some emptyJsonObject,
    createdAt := 20 }

/-- Witness for the amended C1 at a concrete instance with distinct keys:
the matched row gets exactly a help patch, the unmatched fresh result is
added, nothing is removed. -/
theorem c1_rescan_diff_sets_witness :
    (List.map StoredResult.key [c1WitnessRow]).Nodup ∧
    (List.map NewResult.key [c1WitnessNew1, c1WitnessNew2]).Nodup ∧
    computeRescanDiff [c1WitnessRow] [c1WitnessNew1, c1WitnessNew2] =
      { toAdd := specToAdd [c1WitnessRow] [c1WitnessNew1, c1WitnessNew2]
        toRemove := specToRemove [c1WitnessRow] [c1WitnessNew1, c1WitnessNew2]
        toUpdate := specToUpdate [c1WitnessRow] [c1WitnessNew1, c1WitnessNew2] } ∧
    specToAdd [c1WitnessRow] [c1WitnessNew1, c1WitnessNew2] = [c1WitnessNew2] ∧
    specToRemove [c1WitnessRow] [c1WitnessNew1, c1WitnessNew2] = [] ∧
    specToUpdate [c1WitnessRow] [c1WitnessNew1, c1WitnessNew2] =
      [(11, { help := some (some (some "new")), impact := none, tags := none,
              elementPath := none, details := none })] :=
  ⟨by decide, by decide,
    c1_rescan_diff_sets [c1WitnessRow] [c1WitnessNew1, c1WitnessNew2] (by decide) (by decide),
    by decide, by decide, by decide⟩

/-! ## Claim C10: duplicate identity keys -/

/-- C10: duplicate identity keys collapse, the later occurrence winning.
Every added fresh result is the last occurrence of its key in the fresh
list and its key matches no existing row; at most one fresh result per key
is added; and every update patch pairs the last existing row having its
key with the last fresh result having that key. -/
theorem c10_duplicate_keys_last_wins (S : List StoredResult) (N : List NewResult) :
    (∀ n ∈ (computeRescanDiff S N).toAdd,
        (N.filter (fun m => m.key == n.key)).getLast? = some n ∧
        (S.any (fun e => e.key == n.key)) = false) ∧
    ((computeRescanDiff S N).toAdd.map NewResult.key).Nodup ∧
    (∀ u ∈ (computeRescanDiff S N).toUpdate, ∃ e n,
        (S.filter (fun e2 => e2.key == e.key)).getLast? = some e ∧
        (N.filter (fun m => m.key == e.key)).getLast? = some n ∧
        u = (e.id, computePatch e n) ∧ (computePatch e n).isUnchanged = false) := by
  refine ⟨?_, ?_, ?_⟩
  · intro n hn
    simp only [computeRescanDiff] at hn
    obtain ⟨p, hp, hfp⟩ := List.mem_filterMap.mp hn
    by_cases hc : jsMapHasKey (buildKeyMap StoredResult.key S) p.1
    · rw [if_pos hc] at hfp; exact absurd hfp (by simp)
    · rw [if_neg hc] at hfp
      have hpn : p.2 = n := by simpa using hfp
      obtain ⟨hk, _⟩ := buildKeyMap_mem NewResult.key N p hp
      have hget : jsMapGet (buildKeyMap NewResult.key N) p.1 = some p.2 :=
        jsMapGet_of_mem_nodup (buildKeyMap_keys_nodup _ _) hp
      rw [buildKeyMap_get] at hget
      constructor
      · rw [← hpn, ← hk]
        exact hget
      · rw [← buildKeyMap_hasKey StoredResult.key S]
        have : p.1 = n.key := by rw [hk, hpn]
        rw [← this]
        exact bool_eq_false hc
  · simp only [computeRescanDiff]
    apply List.Nodup.sublist
    · apply map_key_filterMap_sublist
      intro p hp v hv
      by_cases hc : jsMapHasKey (buildKeyMap StoredResult.key S) p.1
      · rw [if_pos hc] at hv; exact absurd hv (by simp)
      · rw [if_neg hc] at hv
        have : p.2 = v := by simpa using hv
        rw [← this, (buildKeyMap_mem NewResult.key N p hp).1]
    · exact buildKeyMap_keys_nodup _ _
  · intro u hu
    simp only [computeRescanDiff] at hu
    obtain ⟨p, hp, hfp⟩ := List.mem_filterMap.mp hu
    obtain ⟨hk, _⟩ := buildKeyMap_mem StoredResult.key S p hp
    cases hget : jsMapGet (buildKeyMap NewResult.key N) p.1 with
    | none => rw [hget] at hfp; exact absurd hfp (by simp)
    | some nw =>
      rw [hget] at hfp
      have hfp' : (if (computePatch p.2 nw).isUnchanged = true then none
          else some (p.2.id, computePatch p.2 nw)) = some u := hfp
      by_cases hch : (computePatch p.2 nw).isUnchanged
      · rw [if_pos hch] at hfp'; exact absurd hfp' (by simp)
      · rw [if_neg hch] at hfp'
        have hu' : u = (p.2.id, computePatch p.2 nw) := by simpa using hfp'.symm
        refine ⟨p.2, nw, ?_, ?_, hu', bool_eq_false hch⟩
        · have hgete : jsMapGet (buildKeyMap StoredResult.key S) p.1 = some p.2 :=
            jsMapGet_of_mem_nodup (buildKeyMap_keys_nodup _ _) hp
          rw [buildKeyMap_get] at hgete
          rw [← hk]
          exact hgete
        · rw [buildKeyMap_get] at hget
          rw [← hk]
          exact hget

/-! ## Claim C3: terminal scan status -/

/-- C3: whatever the strategy outcomes and whatever the persistence layer
does, `processScan` leaves the scan's status terminal — `completed` or
`failed` — on every code path, including adapter exhaustion and
persistence exceptions. -/
theorem c3_terminal_status (db : ScanDb) (env : ScanEnv) (isRescan : Bool) (now nextId : Nat) :
    (processScan db env isRescan now nextId).scan.status = "completed" ∨
    (processScan db env isRescan now nextId).scan.status = "failed" := by
  cases hA : runAnalysis env with
  | error msg =>
    right
    simp [processScan, hA, markScanFailed]
  | ok pm =>
    obtain ⟨payload, method⟩ := pm
    by_cases hR : isRescan
    · cases hP : handleRescanDiff db.scan.id now nextId db.results env.persistFail payload.results with
      | error m =>
        right
        simp [processScan, hA, hR, hP, markScanFailed]
      | ok rows =>
        left
        simp [processScan, hA, hR, hP]
    · by_cases hE : payload.results.isEmpty
      · left
        simp [processScan, hA, hR, hE]
      · cases hF : env.persistFail with
        | some m =>
          right
          simp [processScan, hA, hR, hE, hF, markScanFailed]
        | none =>
          left
          simp [processScan, hA, hR, hE, hF]

/-! ## Claim C5: strategy fallback order -/

/-- C5: the strategies are tried in the fixed order Simple Checker,
Playwright, HTML validator; the first success supplies the payload and its
identity is recorded in `analysisMethod` on completion together with the
winning summary; when all three fail the scan fails with the concatenated
per-strategy message. -/
theorem c5_fallback_chain (env : ScanEnv) (db : ScanDb) (isRescan : Bool) (now nextId : Nat) :
    (∀ p, env.simpleOutcome = .ok p → runAnalysis env = .ok (p, "simple")) ∧
    (∀ e1 p, env.simpleOutcome = .error e1 → env.playwrightOutcome = .ok p →
      runAnalysis env = .ok (p, "playwright")) ∧
    (∀ e1 e2 p, env.simpleOutcome = .error e1 → env.playwrightOutcome = .error e2 →
      env.htmlOutcome = .ok p → runAnalysis env = .ok (p, "html-validator")) ∧
    (∀ p m, runAnalysis env = .ok (p, m) → env.persistFail = none →
      (processScan db env isRescan now nextId).scan.status = "completed" ∧
      (processScan db env isRescan now nextId).scan.analysisMethod = some m ∧
      (processScan db env isRescan now nextId).scan.totalIssues = some p.summary.total) ∧
    (∀ e1 e2 e3, env.simpleOutcome = .error e1 → env.playwrightOutcome = .error e2 →
      env.htmlOutcome = .error e3 →
      (processScan db env isRescan now nextId).scan.status = "failed" ∧
      (processScan db env isRescan now nextId).scan.error =
        some ("All analysis methods failed: Simple: " ++ e1 ++
          ", Playwright: " ++ e2 ++ ", HTML: " ++ e3)) := by
  refine ⟨?_, ?_, ?_, ?_, ?_⟩
  · intro p hp
    simp [runAnalysis, hp]
  · intro e1 p h1 hp
    simp [runAnalysis, h1, hp]
  · intro e1 e2 p h1 h2 hp
    simp [runAnalysis, h1, h2, hp]
  · intro p m hA hF
    by_cases hR : isRescan
    · simp [processScan, hA, hR, handleRescanDiff, hF]
    · by_cases hE : p.results.isEmpty
      · simp [processScan, hA, hR, hE]
      · simp [processScan, hA, hR, hE, hF]
  · intro e1 e2 e3 h1 h2 h3
    have hA : runAnalysis env = .error ("All analysis methods failed: Simple: " ++ e1 ++
        ", Playwright: " ++ e2 ++ ", HTML: " ++ e3) := by
      simp [runAnalysis, h1, h2, h3]
    simp [processScan, hA, markScanFailed]

/-- A payload used by the C5 witness. -/
def c5Payload : AnalysisPayload :=
  { results := [], summary := { critical := 0, serious := 0, moderate := 0, minor := 1, total := 1 } }

/-- An environment whose Simple Checker fails and whose Playwright run
succeeds. -/
def c5EnvPlaywright : ScanEnv :=
  { simpleOutcome := .error "timeout", playwrightOutcome := .ok c5Payload,
    htmlOutcome := .error "unused", persistFail := none }

/-- An environment in which all three strategies fail. -/
def c5EnvAllFail : ScanEnv :=
  { simpleOutcome := .error "e1", playwrightOutcome := .error "e2",
    htmlOutcome := .error "e3", persistFail := none }

/-- A scan database used by the orchestrator witnesses. -/
def c5Db : ScanDb :=
  { scan :=
      { id := 7, projectId := 1, url := "https://a.com", status := "in_progress",
        startedAt := some 1, completedAt := none, error := none, totalIssues := none,
        criticalIssues := none, seriousIssues := none, moderateIssues := none,
        minorIssues := none, analysisMethod := none, createdAt := 1 }
    results := [] }

/-- Witness for C5 at concrete environments: the Playwright fallback wins
and is recorded on the completed scan; exhaustion yields the concatenated
failure message. -/
theorem c5_fallback_chain_witness :
    runAnalysis c5EnvPlaywright = .ok (c5Payload, "playwright") ∧
    (processScan c5Db c5EnvPlaywright false 2 100).scan.status = "completed" ∧
    (processScan c5Db c5EnvPlaywright false 2 100).scan.analysisMethod = some "playwright" ∧
    (processScan c5Db c5EnvAllFail false 2 100).scan.status = "failed" ∧
    (processScan c5Db c5EnvAllFail false 2 100).scan.error =
      some "All analysis methods failed: Simple: e1, Playwright: e2, HTML: e3" := by
  obtain ⟨-, h2, -, h4, h5⟩ := c5_fallback_chain c5EnvPlaywright c5Db false 2 100
  obtain ⟨-, -, -, -, h5'⟩ := c5_fallback_chain c5EnvAllFail c5Db false 2 100
  have ha := h2 "timeout" c5Payload (by decide) (by decide)
  have hb := h4 c5Payload "playwright" ha (by decide)
  have hc := h5' "e1" "e2" "e3" (by decide) (by decide) (by decide)
  exact ⟨ha, hb.1, hb.2.1, hc.1, by exact hc.2⟩

/-! ## Claim C2: atomic transactional apply -/

/-- C2: when the persistence layer fails during a rescan's reconciliation,
the one-transaction apply leaves the stored result rows exactly as they
were — no deletion, insertion or patch is observable — and the failure
propagates so the scan is marked failed with the thrown message. -/
theorem c2_atomic_rollback (db : ScanDb) (env : ScanEnv) (now nextId : Nat)
    (msg : String) (payload : AnalysisPayload) (method : String)
    (hfail : env.persistFail = some msg)
    (hA : runAnalysis env = .ok (payload, method)) :
    handleRescanDiff db.scan.id now nextId db.results env.persistFail payload.results
      = .error msg ∧
    (processScan db env true now nextId).results = db.results ∧
    (processScan db env true now nextId).scan.status = "failed" ∧
    (processScan db env true now nextId).scan.error = some msg := by
  have hH : handleRescanDiff db.scan.id now nextId db.results env.persistFail payload.results
      = .error msg := by
    simp [handleRescanDiff, hfail]
  refine ⟨hH, ?_, ?_, ?_⟩ <;> simp [processScan, hA, hH, markScanFailed]

/-- The analysis payload used by the C2 witness. -/
def c2Payload : AnalysisPayload :=
  { results :=
      [{ url := "https://a.com", message := "Missing alt", element := none,
         severity := "critical", impact := none, help := none, tags := [],
         elementPath := none, details := some emptyJsonObject, createdAt := 5 }],
    summary := { critical := 1, serious := 0, moderate := 0, minor := 0, total := 1 } }

/-- An environment whose analysis succeeds but whose persistence layer
throws. -/
def c2EnvTxFail : ScanEnv :=
  { simpleOutcome := .ok c2Payload,
    playwrightOutcome := .error "unused", htmlOutcome := .error "unused",
    persistFail := some "deadlock" }

/-- A scan database with one stored row, used by the C2 witness. -/
def c2Db : ScanDb :=
  { scan :=
      { id := 9, projectId := 1, url := "https://a.com", status := "in_progress",
        startedAt := some 1, completedAt := none, error := none, totalIssues := none,
        criticalIssues := none, seriousIssues := none, moderateIssues := none,
        minorIssues := none, analysisMethod := none, createdAt := 1 }
    results :=
      [{ id := 3, scanId := 9, url := "https://a.com", message := "Old issue",
         element := none, severity := "minor", impact := none, help := none,
         tags := [], elementPath := none, details := emptyJsonObject,
         createdAt := 2, updatedAt := 2 }] }

/-- Witness for C2: with a failing transaction the stored row survives
untouched and the scan is failed with the thrown message. -/
theorem c2_atomic_rollback_witness :
    (processScan c2Db c2EnvTxFail true 6 100).results = c2Db.results ∧
    (processScan c2Db c2EnvTxFail true 6 100).scan.status = "failed" ∧
    (processScan c2Db c2EnvTxFail true 6 100).scan.error = some "deadlock" := by
  obtain ⟨-, h1, h2, h3⟩ :=
    c2_atomic_rollback c2Db c2EnvTxFail 6 100 "deadlock" c2Payload "simple"
      (by decide) (by decide)
  exact ⟨h1, h2, h3⟩

/-! ## Claim C8: POST /scans -/

/-- C8: with a `scanId` the route resets that scan in place — status
`in_progress`, `startedAt = now`, url overwritten, `completedAt`, `error`,
the five counters and `analysisMethod` cleared, all other fields kept —
and without one it creates a fresh `in_progress` scan; in both cases the
response carries the `in_progress` scan record and the analysis is
dispatched as a detached background task. -/
theorem c8_post_scans (scans : List Scan) (body : PostScansBody) (now newId : Nat)
    (pid : Nat) (u : String)
    (hpid : body.projectId = some pid) (hurl : body.url = some u) (hne : u ≠ "") :
    (∀ sid s, body.scanId = some sid → scans.find? (fun t => t.id == sid) = some s →
      postScans scans body now newId =
        (.ok (resetScanForRescan s u now),
          scans.map (fun t => if t.id == sid then resetScanForRescan s u now else t),
          some { scanId := sid, url := u,
                 compliance := body.complianceOptions.getD defaultComplianceOptions,
                 isRescan := true }) ∧
      (resetScanForRescan s u now).status = "in_progress" ∧
      (resetScanForRescan s u now).startedAt = some now ∧
      (resetScanForRescan s u now).url = u ∧
      (resetScanForRescan s u now).completedAt = none ∧
      (resetScanForRescan s u now).error = none ∧
      (resetScanForRescan s u now).totalIssues = none ∧
      (resetScanForRescan s u now).criticalIssues = none ∧
      (resetScanForRescan s u now).seriousIssues = none ∧
      (resetScanForRescan s u now).moderateIssues = none ∧
      (resetScanForRescan s u now).minorIssues = none ∧
      (resetScanForRescan s u now).analysisMethod = none ∧
      (resetScanForRescan s u now).id = s.id ∧
      (resetScanForRescan s u now).createdAt = s.createdAt ∧
      (resetScanForRescan s u now).projectId = s.projectId) ∧
    (body.scanId = none →
      ∃ s', postScans scans body now newId =
          (.ok s', scans ++ [s'],
            some { scanId := newId, url := u,
                   compliance := body.complianceOptions.getD defaultComplianceOptions,
                   isRescan := false }) ∧
        s'.status = "in_progress" ∧ s'.startedAt = some now ∧ s'.url = u ∧
        s'.id = newId ∧ s'.projectId = pid) := by
  have hval : (body.projectId.isNone || urlFalsy body.url) = false := by
    rw [hpid, hurl]
    simp [urlFalsy, hne]
  constructor
  · intro sid s hsid hfind
    refine ⟨?_, rfl, rfl, rfl, rfl, rfl, rfl, rfl, rfl, rfl, rfl, rfl, rfl, rfl, rfl⟩
    unfold postScans
    rw [hval]
    simp only [Bool.false_eq_true, if_false, hsid, hfind, hurl, Option.getD_some]
  · intro hsid
    refine ⟨{ id := newId, projectId := body.projectId.getD 0, url := u,
              status := "in_progress", startedAt := some now, completedAt := none,
              error := none, totalIssues := none, criticalIssues := none,
              seriousIssues := none, moderateIssues := none, minorIssues := none,
              analysisMethod := none, createdAt := now }, ?_, rfl, rfl, rfl, rfl, ?_⟩
    · unfold postScans
      rw [hval]
      simp only [Bool.false_eq_true, if_false, hsid, hurl, Option.getD_some]
    · simp [hpid]

/-- Scans table used by the C8 witness. -/
def c8Scans : List Scan :=
  [{ id := 4, projectId := 2, url := "https://old.example", status := "completed",
     startedAt := some 1, completedAt := some 2, error := none, totalIssues := some 3,
     criticalIssues := some 1, seriousIssues := some 1, moderateIssues := some 1,
     minorIssues := some 0, analysisMethod := some "simple", createdAt := 1 }]

/-- Request body used by the C8 witness: a rescan of scan 4. -/
def c8Body : PostScansBody :=
  { projectId := some 2, url := some "https://new.example",
    complianceOptions := none, scanId := some 4 }

/-- Witness for C8: the completed scan 4 is reset in place to
`in_progress` with cleared summary fields and the task dispatched as a
rescan. -/
theorem c8_post_scans_witness :
    (postScans c8Scans c8Body 9 99).1 =
      PostScansOutcome.ok (resetScanForRescan (c8Scans.get ⟨0, by decide⟩) "https://new.example" 9) ∧
    (resetScanForRescan (c8Scans.get ⟨0, by decide⟩) "https://new.example" 9).status
      = "in_progress" ∧
    (resetScanForRescan (c8Scans.get ⟨0, by decide⟩) "https://new.example" 9).completedAt = none ∧
    (postScans c8Scans c8Body 9 99).2.2 =
      some { scanId := 4, url := "https://new.example",
             compliance := defaultComplianceOptions, isRescan := true } := by
  obtain ⟨h1, -⟩ :=
    c8_post_scans c8Scans c8Body 9 99 2 "https://new.example" (by decide) (by decide) (by decide)
  obtain ⟨heq, hst, -, -, hca, -⟩ :=
    h1 4 (c8Scans.get ⟨0, by decide⟩) (by decide) (by decide)
  refine ⟨?_, hst, hca, ?_⟩
  · rw [heq]
  · rw [heq]
    rfl

/-! ## Claim C7: POST /projects/[id]/rescan -/

/-- Characterization of the per-url loop: one dispatched `POST /scans`
body per url, carrying the project id, the url, the project's (or default)
compliance options, and the latest matching scan's id when one exists —
otherwise no `scanId` and a fresh pending scan among the created ones. -/
lemma rescanSteps_spec (projId : Nat) (co : ComplianceOptions) (sorted : List Scan)
    (now : Nat) :
    ∀ (urls : List UrlRecord) (nid : Nat),
      (rescanSteps projId co sorted now urls nid).1.length = urls.length ∧
      (rescanSteps projId co sorted now urls nid).2.2.length = urls.length ∧
      ∀ pr ∈ urls.zip (rescanSteps projId co sorted now urls nid).2.2,
        pr.2.projectId = some projId ∧ pr.2.url = some pr.1.url ∧
        pr.2.complianceOptions = some co ∧
        ((∃ s, sorted.find? (fun s2 => s2.url == pr.1.url) = some s ∧
            pr.2.scanId = some s.id) ∨
         (sorted.find? (fun s2 => s2.url == pr.1.url) = none ∧ pr.2.scanId = none ∧
          ∃ c ∈ (rescanSteps projId co sorted now urls nid).2.1,
            c.url = pr.1.url ∧ c.status = "pending")) := by
  intro urls
  induction urls with
  | nil => intro nid; exact ⟨rfl, rfl, by intro pr hpr; simp at hpr⟩
  | cons u rest ih =>
    intro nid
    cases hf : sorted.find? (fun s2 => s2.url == u.url) with
    | some s =>
      obtain ⟨ih1, ih2, ih3⟩ := ih nid
      refine ⟨?_, ?_, ?_⟩
      · simp [rescanSteps, hf, ih1]
      · simp [rescanSteps, hf, ih2]
      · intro pr hpr
        simp only [rescanSteps, hf] at hpr ⊢
        rcases List.mem_cons.mp (by simpa using hpr) with h1 | h2
        · subst h1
          exact ⟨rfl, rfl, rfl, Or.inl ⟨s, hf, rfl⟩⟩
        · exact ih3 pr h2
    | none =>
      obtain ⟨ih1, ih2, ih3⟩ := ih (nid + 1)
      refine ⟨?_, ?_, ?_⟩
      · simp [rescanSteps, hf, ih1]
      · simp [rescanSteps, hf, ih2]
      · intro pr hpr
        simp only [rescanSteps, hf] at hpr ⊢
        rcases List.mem_cons.mp (by simpa using hpr) with h1 | h2
        · subst h1
          refine ⟨rfl, rfl, rfl, Or.inr ⟨hf, rfl, ?_⟩⟩
          exact ⟨_, List.mem_cons_self _ _, rfl, rfl⟩
        · obtain ⟨ha, hb, hc, hd⟩ := ih3 pr h2
          refine ⟨ha, hb, hc, ?_⟩
          rcases hd with h | ⟨hn, hsc, c, hcmem, hcu, hcs⟩
          · exact Or.inl h
          · exact Or.inr ⟨hn, hsc, c, List.mem_cons_of_mem _ hcmem, hcu, hcs⟩

/-- A pending scan belonging to the counterexample project. -/
def c7PendingScan : Scan :=
  { id := 1, projectId := 3, url := "https://x.example", status := "pending",
    startedAt := none, completedAt := none, error := none, totalIssues := none,
    criticalIssues := none, seriousIssues := none, moderateIssues := none,
    minorIssues := none, analysisMethod := none, createdAt := 1 }

/-- A project with a pending scan but no Url rows (reachable because
`POST /scans` creates scans for arbitrary project/url pairs without
checking the Url table). -/
def c7Project : Project :=
  { id := 3, urls := [], scans := [c7PendingScan], complianceOptions := none }

/-- C7 counterexample: this project has a pending scan, yet the route
answers 400 (no urls) — not 409 — because the empty-urls guard runs before
the conflict check. -/
theorem c7_counterexample :
    (c7Project.scans.any (fun s => s.status == "pending" || s.status == "in_progress"))
      = true ∧
    (rescanProject (some c7Project) 10 20).1 = RescanOutcome.noUrls ∧
    (rescanProject (some c7Project) 10 20).1 ≠ RescanOutcome.conflict := by
  refine ⟨by decide, by decide, ?_⟩
  decide

/-- C7 (amended): for a project that has at least one Url, the route
answers 409 and triggers nothing whenever some scan of the project is
pending or in progress; otherwise it finds (latest scan for the url) or
creates (fresh pending scan) a Scan for every Url and dispatches the
analysis path once per Url. -/
theorem c7_rescan_gate (p : Project) (nextId now : Nat) (hurls : p.urls ≠ []) :
    ((p.scans.any (fun s => s.status == "pending" || s.status == "in_progress")) = true →
      rescanProject (some p) nextId now = (.conflict, [], [])) ∧
    ((p.scans.any (fun s => s.status == "pending" || s.status == "in_progress")) = false →
      ∃ info created triggers,
        rescanProject (some p) nextId now = (.started info, created, triggers) ∧
        triggers.length = p.urls.length ∧
        ∀ pr ∈ p.urls.zip triggers,
          pr.2.projectId = some p.id ∧ pr.2.url = some pr.1.url ∧
          pr.2.complianceOptions = some (p.complianceOptions.getD defaultComplianceOptions) ∧
          ((∃ s, (List.insertionSort (fun a b : Scan => b.createdAt ≤ a.createdAt)
              p.scans).find? (fun s2 => s2.url == pr.1.url) = some s ∧
              pr.2.scanId = some s.id) ∨
           (pr.2.scanId = none ∧ ∃ c ∈ created, c.url = pr.1.url ∧
              c.status = "pending"))) := by
  have hne : p.urls.isEmpty = false := by
    cases hu : p.urls with
    | nil => exact absurd hu hurls
    | cons a t => rfl
  constructor
  · intro hpend
    simp [rescanProject, hne, hpend]
  · intro hpend
    obtain ⟨h1, h2, h3⟩ := rescanSteps_spec p.id (p.complianceOptions.getD
      defaultComplianceOptions)
      (List.insertionSort (fun a b : Scan => b.createdAt ≤ a.createdAt) p.scans)
      now p.urls nextId
    refine ⟨(rescanSteps p.id (p.complianceOptions.getD defaultComplianceOptions)
        (List.insertionSort (fun a b : Scan => b.createdAt ≤ a.createdAt) p.scans)
        now p.urls nextId).1,
      (rescanSteps p.id (p.complianceOptions.getD defaultComplianceOptions)
        (List.insertionSort (fun a b : Scan => b.createdAt ≤ a.createdAt) p.scans)
        now p.urls nextId).2.1,
      (rescanSteps p.id (p.complianceOptions.getD defaultComplianceOptions)
        (List.insertionSort (fun a b : Scan => b.createdAt ≤ a.createdAt) p.scans)
        now p.urls nextId).2.2, ?_, h2, ?_⟩
    · simp [rescanProject, hne, hpend]
    · intro pr hpr
      obtain ⟨ha, hb, hc, hd⟩ := h3 pr hpr
      refine ⟨ha, hb, hc, ?_⟩
      rcases hd with h | ⟨_, hsc, c, hcm, hcu, hcs⟩
      · exact Or.inl h
      · exact Or.inr ⟨hsc, c, hcm, hcu, hcs⟩

/-- An in-progress scan of the busy witness project. -/
def c7BusyScan : Scan :=
  { id := 2, projectId := 5, url := "https://a.example",
    status := "in_progress", startedAt := some 1, completedAt := none, error := none,
    totalIssues := none, criticalIssues := none, seriousIssues := none,
    moderateIssues := none, minorIssues := none, analysisMethod := none,
    createdAt := 1 }

/-- A project with one in-progress scan, used by the C7 witness. -/
def c7WProjBusy : Project :=
  { id := 5, urls := [{ id := 1, url := "https://a.example" }],
    scans := [c7BusyScan],
    complianceOptions := none }


/-- A completed scan of the idle witness project. -/
def c7IdleScan : Scan :=
  { id := 8, projectId := 6, url := "https://b.example",
    status := "completed", startedAt := some 1, completedAt := some 2, error := none,
    totalIssues := some 0, criticalIssues := some 0, seriousIssues := some 0,
    moderateIssues := some 0, minorIssues := some 0, analysisMethod := some "simple",
    createdAt := 1 }

/-- A project with one completed scan, used by the C7 witness. -/
def c7WProjIdle : Project :=
  { id := 6, urls := [{ id := 3, url := "https://b.example" }],
    scans := [c7IdleScan],
    complianceOptions := none }

/-- Witness for the amended C7: the busy project is rejected with a
conflict and no triggers; the idle project gets exactly one dispatched
scan per url. -/
theorem c7_rescan_gate_witness :
    rescanProject (some c7WProjBusy) 10 20 = (.conflict, [], []) ∧
    (∃ info created triggers,
      rescanProject (some c7WProjIdle) 10 20 = (.started info, created, triggers) ∧
      triggers.length = 1) := by
  obtain ⟨hb, -⟩ := c7_rescan_gate c7WProjBusy 10 20 (by decide)
  obtain ⟨-, hi⟩ := c7_rescan_gate c7WProjIdle 10 20 (by decide)
  refine ⟨hb (by decide), ?_⟩
  obtain ⟨info, created, triggers, heq, hlen, -⟩ := hi (by decide)
  exact ⟨info, created, triggers, heq, hlen.trans (by decide)⟩

/-! ## Claim C6: update-in-place frame -/

/-- Every removal id belongs to an existing row whose key has no fresh
match. -/
lemma toRemove_unmatched (S : List StoredResult) (N : List NewResult) :
    ∀ i ∈ (computeRescanDiff S N).toRemove, ∃ e ∈ S, e.id = i ∧
      (N.any (fun n => n.key == e.key)) = false := by
  intro i hi
  simp only [computeRescanDiff] at hi
  obtain ⟨p, hp, hfp⟩ := List.mem_filterMap.mp hi
  obtain ⟨hk, hmem⟩ := buildKeyMap_mem StoredResult.key S p hp
  by_cases hc : jsMapHasKey (buildKeyMap NewResult.key N) p.1
  · rw [if_pos hc] at hfp; exact absurd hfp (by simp)
  · rw [if_neg hc] at hfp
    refine ⟨p.2, hmem, by simpa using hfp, ?_⟩
    rw [← buildKeyMap_hasKey NewResult.key N, ← hk]
    exact bool_eq_false hc

/-- The fst components of the update list are pairwise distinct when the
stored ids are. -/
lemma toUpdate_fst_pairwise (S : List StoredResult) (N : List NewResult)
    (hid : (S.map (fun e => e.id)).Nodup) :
    (computeRescanDiff S N).toUpdate.Pairwise (fun u v => u.1 ≠ v.1) := by
  simp only [computeRescanDiff]
  have hkeys : (buildKeyMap StoredResult.key S).Pairwise (fun p q => p.1 ≠ q.1) := by
    have := buildKeyMap_keys_nodup StoredResult.key S
    rw [List.Nodup, List.pairwise_map] at this
    exact this
  have hids : (buildKeyMap StoredResult.key S).Pairwise (fun p q => p.2.id ≠ q.2.id) := by
    refine List.Pairwise.imp_of_mem ?_ hkeys
    intro p q hp hq hne heq
    obtain ⟨hkp, hmp⟩ := buildKeyMap_mem StoredResult.key S p hp
    obtain ⟨hkq, hmq⟩ := buildKeyMap_mem StoredResult.key S q hq
    have : p.2 = q.2 := List.inj_on_of_nodup_map hid hmp hmq heq
    exact hne (by rw [hkp, hkq, this])
  refine List.Pairwise.filterMap _ ?_ hids
  intro p q hne u hu v hv
  have hu1 : u.1 = p.2.id := by
    rcases hg : jsMapGet (buildKeyMap NewResult.key N) p.1 with _ | nw
    · rw [hg] at hu; simp at hu
    · rw [hg] at hu
      have hu' : u ∈ (if (computePatch p.2 nw).isUnchanged = true then none
          else some (p.2.id, computePatch p.2 nw)) := hu
      by_cases hch : (computePatch p.2 nw).isUnchanged
      · rw [if_pos hch] at hu'; simp at hu'
      · rw [if_neg hch] at hu'
        have : u = (p.2.id, computePatch p.2 nw) := by
          have h0 : (p.2.id, computePatch p.2 nw) = u := by simpa using hu'
          exact h0.symm
        rw [this]
  have hv1 : v.1 = q.2.id := by
    rcases hg : jsMapGet (buildKeyMap NewResult.key N) q.1 with _ | nw
    · rw [hg] at hv; simp at hv
    · rw [hg] at hv
      have hv' : v ∈ (if (computePatch q.2 nw).isUnchanged = true then none
          else some (q.2.id, computePatch q.2 nw)) := hv
      by_cases hch : (computePatch q.2 nw).isUnchanged
      · rw [if_pos hch] at hv'; simp at hv'
      · rw [if_neg hch] at hv'
        have : v = (q.2.id, computePatch q.2 nw) := by
          have h0 : (q.2.id, computePatch q.2 nw) = v := by simpa using hv'
          exact h0.symm
        rw [this]
  rw [hu1, hv1]
  exact hne

/-- The sequential update loop acts row-wise. -/
lemma applyUpdatesById_eq_map (now : Nat) (ups : List (Nat × ResultPatch))
    (rows : List StoredResult) :
    applyUpdatesById now ups rows
      = rows.map (fun r => ups.foldl
          (fun acc up => if acc.id == up.1 then applyPatch now acc up.2 else acc) r) := by
  induction ups generalizing rows with
  | nil => simp [applyUpdatesById]
  | cons u t ih =>
    unfold applyUpdatesById at ih ⊢
    rw [List.foldl_cons, ih, List.map_map]
    rfl

lemma applyPatch_id (now : Nat) (r : StoredResult) (p : ResultPatch) :
    (applyPatch now r p).id = r.id := rfl

/-- A row untouched by every update id is left unchanged by the loop. -/
lemma foldPatch_of_not_mem (now : Nat) (ups : List (Nat × ResultPatch))
    (r : StoredResult) (h : ∀ up ∈ ups, up.1 ≠ r.id) :
    ups.foldl (fun acc up => if acc.id == up.1 then applyPatch now acc up.2 else acc) r = r := by
  induction ups with
  | nil => rfl
  | cons u t ih =>
    rw [List.foldl_cons]
    have : (r.id == u.1) = false := by
      simpa using fun hc : r.id = u.1 => h u (List.mem_cons_self u t) hc.symm
    rw [this]
    simp only [Bool.false_eq_true, if_false]
    exact ih (fun up hup => h up (List.mem_cons_of_mem u hup))

/-- With pairwise-distinct update ids, the loop applies exactly the one
matching patch to a row. -/
lemma foldPatch_single (now : Nat) (ups : List (Nat × ResultPatch))
    (r : StoredResult) (p : ResultPatch) (hmem : (r.id, p) ∈ ups)
    (hpw : ups.Pairwise (fun u v => u.1 ≠ v.1)) :
    ups.foldl (fun acc up => if acc.id == up.1 then applyPatch now acc up.2 else acc) r
      = applyPatch now r p := by
  induction ups with
  | nil => simp at hmem
  | cons u t ih =>
    rw [List.foldl_cons]
    rcases List.mem_cons.mp hmem with h1 | h2
    · rw [← h1]
      simp only [beq_self_eq_true, if_true]
      apply foldPatch_of_not_mem
      intro up hup
      have := (List.pairwise_cons.mp hpw).1 up hup
      rw [← h1] at this
      rw [applyPatch_id]
      exact fun hc => this hc.symm
    · have hne : u.1 ≠ r.id := by
        have := (List.pairwise_cons.mp hpw).1 (r.id, p) h2
        exact this
      have : (r.id == u.1) = false := by
        simpa using fun hc : r.id = u.1 => hne hc.symm
      rw [this]
      simp only [Bool.false_eq_true, if_false]
      exact ih h2 (List.pairwise_cons.mp hpw).2

/-- Characterization of the update entries: each pairs the last stored row
of a matched key with the last fresh result of that key and a non-empty
patch. -/
lemma toUpdate_mem_char (S : List StoredResult) (N : List NewResult) :
    ∀ u ∈ (computeRescanDiff S N).toUpdate, ∃ e n, e ∈ S ∧
      (S.filter (fun e2 => e2.key == e.key)).getLast? = some e ∧
      (N.filter (fun m => m.key == e.key)).getLast? = some n ∧
      u = (e.id, computePatch e n) ∧ (computePatch e n).isUnchanged = false := by
  intro u hu
  simp only [computeRescanDiff] at hu
  obtain ⟨p, hp, hfp⟩ := List.mem_filterMap.mp hu
  obtain ⟨hk, hmem⟩ := buildKeyMap_mem StoredResult.key S p hp
  cases hget : jsMapGet (buildKeyMap NewResult.key N) p.1 with
  | none => rw [hget] at hfp; exact absurd hfp (by simp)
  | some nw =>
    rw [hget] at hfp
    have hfp' : (if (computePatch p.2 nw).isUnchanged = true then none
        else some (p.2.id, computePatch p.2 nw)) = some u := hfp
    by_cases hch : (computePatch p.2 nw).isUnchanged
    · rw [if_pos hch] at hfp'; exact absurd hfp' (by simp)
    · rw [if_neg hch] at hfp'
      have hu' : u = (p.2.id, computePatch p.2 nw) := by simpa using hfp'.symm
      refine ⟨p.2, nw, hmem, ?_, ?_, hu', bool_eq_false hch⟩
      · have hgete : jsMapGet (buildKeyMap StoredResult.key S) p.1 = some p.2 :=
          jsMapGet_of_mem_nodup (buildKeyMap_keys_nodup _ _) hp
        rw [buildKeyMap_get] at hgete
        rw [← hk]
        exact hgete
      · rw [buildKeyMap_get] at hget
        rw [← hk]
        exact hget

/-- C6: an existing row whose identity key matches a fresh result is never
removed and keeps its id, scanId, createdAt, url, message, element and
severity; the row is either untouched or patched, and a patch leaves every
checked field whose fresh value equals the stored one unchanged. -/
theorem c6_matched_rows_frame (S : List StoredResult) (N : List NewResult)
    (scanId now nextId : Nat) (r : StoredResult)
    (hid : (S.map (fun e => e.id)).Nodup)
    (hr : r ∈ S) (hmatch : (N.any (fun n => n.key == r.key)) = true) :
    ∃ r' ∈ applyRescanDiff scanId now nextId S (computeRescanDiff S N),
      r'.id = r.id ∧ r'.scanId = r.scanId ∧ r'.createdAt = r.createdAt ∧
      r'.url = r.url ∧ r'.message = r.message ∧ r'.element = r.element ∧
      r'.severity = r.severity ∧
      (r' = r ∨ ∃ n, (N.filter (fun m => m.key == r.key)).getLast? = some n ∧
        r' = applyPatch now r (computePatch r n)) ∧
      (∀ n, (N.filter (fun m => m.key == r.key)).getLast? = some n →
        (n.help = some r.help → r'.help = r.help) ∧
        (n.impact = some r.impact → r'.impact = r.impact) ∧
        (n.tags = r.tags → r'.tags = r.tags) ∧
        (n.elementPath = some r.elementPath → r'.elementPath = r.elementPath) ∧
        (n.details = some r.details → r'.details = r.details)) := by
  have hsurv : r ∈ S.filter (fun e => !(computeRescanDiff S N).toRemove.contains e.id) := by
    rw [List.mem_filter]
    refine ⟨hr, ?_⟩
    by_cases hc : (computeRescanDiff S N).toRemove.contains r.id
    · exfalso
      have hmemr : r.id ∈ (computeRescanDiff S N).toRemove := by simpa using hc
      obtain ⟨e, heS, heid, hunm⟩ := toRemove_unmatched S N r.id hmemr
      have he : e = r := List.inj_on_of_nodup_map hid heS hr heid
      rw [he] at hunm
      rw [hunm] at hmatch
      exact absurd hmatch (by simp)
    · simpa using hc
  have hrows : r ∈ S.filter (fun e => !(computeRescanDiff S N).toRemove.contains e.id)
      ++ insertRows scanId nextId now (computeRescanDiff S N).toAdd :=
    List.mem_append_left _ hsurv
  unfold applyRescanDiff
  rw [applyUpdatesById_eq_map]
  refine ⟨_, List.mem_map_of_mem _ hrows, ?_⟩
  by_cases hup : ∃ p, (r.id, p) ∈ (computeRescanDiff S N).toUpdate
  · obtain ⟨p, hpmem⟩ := hup
    obtain ⟨e, n, heS, hlastS, hlastN, hue, hch⟩ := toUpdate_mem_char S N _ hpmem
    have heid : e.id = r.id := (congrArg Prod.fst hue).symm
    have he : e = r := List.inj_on_of_nodup_map hid heS hr heid
    subst he
    have hp : p = computePatch e n := (congrArg Prod.snd hue)
    subst hp
    rw [foldPatch_single now _ _ _ hpmem (toUpdate_fst_pairwise S N hid)]
    refine ⟨rfl, rfl, rfl, rfl, rfl, rfl, rfl, Or.inr ⟨n, hlastN, rfl⟩, ?_⟩
    intro n' hn'
    have hnn : n' = n := by
      rw [hlastN] at hn'
      exact (Option.some_injective _ hn').symm
    subst hnn
    refine ⟨?_, ?_, ?_, ?_, ?_⟩ <;> intro hfld <;>
      simp [applyPatch, computePatch, diffOptField, diffDetails, hfld]
  · rw [foldPatch_of_not_mem now _ _ ?_]
    · exact ⟨rfl, rfl, rfl, rfl, rfl, rfl, rfl, Or.inl rfl, fun n _ =>
        ⟨fun _ => rfl, fun _ => rfl, fun _ => rfl, fun _ => rfl, fun _ => rfl⟩⟩
    · intro up hupmem hcid
      refine hup ⟨up.2, ?_⟩
      rw [← hcid]
      simpa using hupmem

/-- Stored row used by the C6 witness. -/
def c6Row : StoredResult :=
  { id := 21, scanId := 5, url := "https://c.example", message := "Missing label",
    element := some "<input>", severity := "serious", impact := some "serious",
    help := some "old help", tags := ["wcag2a"], elementPath := none,
    details := emptyJsonObject, createdAt := 4, updatedAt := 4 }

/-- Fresh result matching `c6Row` with a changed help text. -/
def c6New : NewResult :=
  { url := "https://c.example", message := "Missing label",
    element := some (some "<input>"), severity := "serious",
    impact := some (some "serious"), help := some (some "new help"),
    tags := ["wcag2a"], elementPath := some none, details := some emptyJsonObject,
    createdAt := 8 }

/-- Witness for C6: the matched row keeps its id, creation time and
identity fields through the applied patch, and the untouched fields
(impact, tags) keep their stored values. -/
theorem c6_matched_rows_frame_witness :
    ∃ r' ∈ applyRescanDiff 5 9 100 [c6Row] (computeRescanDiff [c6Row] [c6New]),
      r'.id = 21 ∧ r'.createdAt = 4 ∧ r'.url = "https://c.example" ∧
      r'.severity = "serious" ∧ r'.impact = some "serious" ∧
      r'.tags = ["wcag2a"] ∧ (r' = c6Row ∨ r'.help = some "new help") := by
  obtain ⟨r', hmem, hidq, hsc, hca, hu, hm, he, hsev, hdisj, hcond⟩ :=
    c6_matched_rows_frame [c6Row] [c6New] 5 9 100 c6Row (by decide) (by decide) (by decide)
  refine ⟨r', hmem, ?_, ?_, ?_, ?_, ?_, ?_, ?_⟩
  · exact hidq.trans (by decide)
  · exact hca.trans (by decide)
  · exact hu.trans (by decide)
  · exact hsev.trans (by decide)
  · obtain ⟨h1, h2, h3, h4, h5⟩ := hcond c6New (by decide)
    exact (h2 (by decide)).trans (by decide)
  · obtain ⟨h1, h2, h3, h4, h5⟩ := hcond c6New (by decide)
    exact (h3 (by decide)).trans (by decide)
  · rcases hdisj with h | ⟨n, hn, hr'⟩
    · exact Or.inl h
    · refine Or.inr ?_
      have hn' : n = c6New := by
        have hl : (List.filter (fun m => m.key == c6Row.key) [c6New]).getLast?
            = some c6New := by decide
        rw [hl] at hn
        exact (Option.some_injective _ hn).symm
      subst hn'
      rw [hr']
      decide

/-! ## Claim C4: idempotent reconciliation -/

/-- A stored row whose fresh counterpart omits `details`. -/
def c4Row : StoredResult :=
  { id := 31, scanId := 7, url := "https://d.example", message := "Bad contrast",
    element := none, severity := "minor", impact := none, help := none, tags := [],
    elementPath := none, details := emptyJsonObject, createdAt := 1, updatedAt := 1 }

/-- A fresh result matching `c4Row` whose `details` property is absent
(JS `undefined`). -/
def c4New : NewResult :=
  { url := "https://d.example", message := "Bad contrast", element := none,
    severity := "minor", impact := some none, help := some none, tags := [],
    elementPath := some none, details := none, createdAt := 2 }

/-- C4 counterexample: the stringified stored `details` (`"{}"`, written by
`details || {}`) never equals the stringified absent fresh `details`
(JS `undefined`), so the first run emits a `details: undefined` patch, the
store ignores it, and the second run against the updated state emits the
same patch again — `toUpdate` is not empty on the second run. -/
theorem c4_counterexample :
    (computeRescanDiff [c4Row] [c4New]).toUpdate ≠ [] ∧
    (computeRescanDiff
        (applyRescanDiff 7 5 100 [c4Row] (computeRescanDiff [c4Row] [c4New]))
        [c4New]).toUpdate ≠ [] := by
  refine ⟨by decide, ?_⟩
  decide

/-- Patches preserve the identity key. -/
lemma applyPatch_key (now : Nat) (r : StoredResult) (p : ResultPatch) :
    (applyPatch now r p).key = r.key := rfl

/-- Inserted rows carry their fresh result's identity key. -/
lemma insertRowFromNew_key (s idv now : Nat) (n : NewResult) :
    (insertRowFromNew s idv now n).key = n.key := rfl

/-- The update loop preserves each row's identity key. -/
lemma foldPatch_key (now : Nat) (ups : List (Nat × ResultPatch)) (r : StoredResult) :
    (ups.foldl (fun acc up => if acc.id == up.1 then applyPatch now acc up.2 else acc) r).key
      = r.key := by
  induction ups generalizing r with
  | nil => rfl
  | cons u t ih =>
    rw [List.foldl_cons]
    by_cases hc : (r.id == u.1) = true
    · rw [if_pos hc, ih, applyPatch_key]
    · rw [if_neg hc, ih]

/-- A row patched from a defined fresh result compares equal to it on all
five checked fields. -/
lemma computePatch_applyPatch_unchanged (now : Nat) (r : StoredResult) (nw : NewResult)
    (hh : nw.help ≠ none) (hi : nw.impact ≠ none) (he : nw.elementPath ≠ none)
    (hd : ∃ j, nw.details = some j ∧ jsonTruthy j = true) :
    (computePatch (applyPatch now r (computePatch r nw)) nw).isUnchanged = true := by
  obtain ⟨j, hj, -⟩ := hd
  obtain ⟨vh, hvh⟩ := Option.ne_none_iff_exists'.mp hh
  obtain ⟨vi, hvi⟩ := Option.ne_none_iff_exists'.mp hi
  obtain ⟨ve, hve⟩ := Option.ne_none_iff_exists'.mp he
  simp only [ResultPatch.isUnchanged, computePatch, applyPatch, diffOptField, diffDetails,
    hvh, hvi, hve, hj]
  by_cases h1 : (some vh != some r.help) = true <;>
    by_cases h2 : (some vi != some r.impact) = true <;>
      by_cases h3 : (r.tags != nw.tags) = true <;>
        by_cases h4 : (some ve != some r.elementPath) = true <;>
          by_cases h5 : (some j != some r.details) = true <;>
            simp_all [bne_iff_ne]

/-- A row inserted from a defined fresh result compares equal to it on all
five checked fields. -/
lemma computePatch_insert_unchanged (s idv now : Nat) (n : NewResult)
    (hh : n.help ≠ none) (hi : n.impact ≠ none) (he : n.elementPath ≠ none)
    (hd : ∃ j, n.details = some j ∧ jsonTruthy j = true) :
    (computePatch (insertRowFromNew s idv now n) n).isUnchanged = true := by
  obtain ⟨j, hj, hjt⟩ := hd
  obtain ⟨vh, hvh⟩ := Option.ne_none_iff_exists'.mp hh
  obtain ⟨vi, hvi⟩ := Option.ne_none_iff_exists'.mp hi
  obtain ⟨ve, hve⟩ := Option.ne_none_iff_exists'.mp he
  simp [ResultPatch.isUnchanged, computePatch, insertRowFromNew, diffOptField, diffDetails,
    hvh, hvi, hve, hj, hjt]

/-- Every inserted row comes from a fresh result of the list, with an id at
least `nextId`. -/
lemma insertRows_mem_char (s now : Nat) :
    ∀ (ns : List NewResult) (nid : Nat), ∀ r0 ∈ insertRows s nid now ns,
      ∃ n ∈ ns, ∃ idv, nid ≤ idv ∧ r0 = insertRowFromNew s idv now n := by
  intro ns
  induction ns with
  | nil => intro nid r0 hr0; simp [insertRows] at hr0
  | cons n rest ih =>
    intro nid r0 hr0
    rcases List.mem_cons.mp hr0 with h1 | h2
    · exact ⟨n, List.mem_cons_self n rest, nid, Nat.le_refl nid, h1⟩
    · obtain ⟨m, hm, idv, hidv, heq⟩ := ih (nid + 1) r0 h2
      exact ⟨m, List.mem_cons_of_mem n hm, idv, Nat.le_of_succ_le hidv, heq⟩

/-- Every fresh result of the list has an inserted row. -/
lemma insertRows_cover (s now : Nat) :
    ∀ (ns : List NewResult) (nid : Nat), ∀ n ∈ ns,
      ∃ r0 ∈ insertRows s nid now ns, ∃ idv, r0 = insertRowFromNew s idv now n := by
  intro ns
  induction ns with
  | nil => intro nid n hn; simp at hn
  | cons m rest ih =>
    intro nid n hn
    rcases List.mem_cons.mp hn with h1 | h2
    · exact ⟨insertRowFromNew s nid now m, List.mem_cons_self _ _, nid, by rw [h1]⟩
    · obtain ⟨r0, hr0, idv, heq⟩ := ih (nid + 1) n h2
      exact ⟨r0, List.mem_cons_of_mem _ hr0, idv, heq⟩

/-- A row with a key match among the fresh results is never removed. -/
lemma survives_of_matched (S : List StoredResult) (N : List NewResult)
    (hids : (S.map (fun e => e.id)).Nodup) (r : StoredResult) (hr : r ∈ S)
    (hmatch : (N.any (fun n => n.key == r.key)) = true) :
    r ∈ S.filter (fun e => !(computeRescanDiff S N).toRemove.contains e.id) := by
  rw [List.mem_filter]
  refine ⟨hr, ?_⟩
  by_cases hc : (computeRescanDiff S N).toRemove.contains r.id
  · exfalso
    have hmemr : r.id ∈ (computeRescanDiff S N).toRemove := by simpa using hc
    obtain ⟨e, heS, heid, hunm⟩ := toRemove_unmatched S N r.id hmemr
    have he : e = r := List.inj_on_of_nodup_map hids heS hr heid
    rw [he] at hunm
    rw [hunm] at hmatch
    exact absurd hmatch (by simp)
  · simpa using hc

/-- With pairwise-distinct stored keys, every surviving row has a key match
among the fresh results. -/
lemma survivor_matched (S : List StoredResult) (N : List NewResult)
    (hkeys : (S.map StoredResult.key).Nodup) (r0 : StoredResult)
    (hr0 : r0 ∈ S.filter (fun e => !(computeRescanDiff S N).toRemove.contains e.id)) :
    (N.any (fun n => n.key == r0.key)) = true := by
  obtain ⟨hmem, hkeep⟩ := List.mem_filter.mp hr0
  by_cases hm : (N.any (fun n => n.key == r0.key)) = true
  · exact hm
  · exfalso
    have hm' : (N.any (fun n => n.key == r0.key)) = false := bool_eq_false hm
    have hrem : r0.id ∈ (computeRescanDiff S N).toRemove := by
      simp only [computeRescanDiff]
      refine List.mem_filterMap.mpr ⟨(r0.key, r0), ?_, ?_⟩
      · rw [buildKeyMap_eq_map_of_nodup _ _ hkeys]
        exact List.mem_map_of_mem _ hmem
      · rw [buildKeyMap_hasKey]
        simp only [hm', Bool.false_eq_true, if_false]
    rw [List.contains_eq_any_beq] at hkeep
    have : (computeRescanDiff S N).toRemove.any (fun i => r0.id == i) = true :=
      List.any_eq_true.mpr ⟨r0.id, hrem, by simp⟩
    rw [this] at hkeep
    exact absurd hkeep (by simp)

/-- Every added fresh result is the last of its key and its key has no
stored match. -/
lemma toAdd_mem_char (S : List StoredResult) (N : List NewResult) :
    ∀ n ∈ (computeRescanDiff S N).toAdd,
      (N.filter (fun m => m.key == n.key)).getLast? = some n ∧
      (S.any (fun e => e.key == n.key)) = false := by
  intro n hn
  simp only [computeRescanDiff] at hn
  obtain ⟨p, hp, hfp⟩ := List.mem_filterMap.mp hn
  by_cases hc : jsMapHasKey (buildKeyMap StoredResult.key S) p.1
  · rw [if_pos hc] at hfp; exact absurd hfp (by simp)
  · rw [if_neg hc] at hfp
    have hpn : p.2 = n := by simpa using hfp
    obtain ⟨hk, _⟩ := buildKeyMap_mem NewResult.key N p hp
    have hget : jsMapGet (buildKeyMap NewResult.key N) p.1 = some p.2 :=
      jsMapGet_of_mem_nodup (buildKeyMap_keys_nodup _ _) hp
    rw [buildKeyMap_get] at hget
    constructor
    · rw [← hpn, ← hk]
      exact hget
    · rw [← buildKeyMap_hasKey StoredResult.key S]
      have : p.1 = n.key := by rw [hk, hpn]
      rw [← this]
      exact bool_eq_false hc

/-- With pairwise-distinct stored keys, a matched unchanged pair
contributes no update entry for the row's id. -/
lemma no_update_entry_of_unchanged (S : List StoredResult) (N : List NewResult)
    (hids : (S.map (fun e => e.id)).Nodup) (r0 : StoredResult) (hr0 : r0 ∈ S)
    (nw : NewResult)
    (hnw : (N.filter (fun m => m.key == r0.key)).getLast? = some nw)
    (hun : (computePatch r0 nw).isUnchanged = true) :
    ∀ up ∈ (computeRescanDiff S N).toUpdate, up.1 ≠ r0.id := by
  intro up hup hcid
  obtain ⟨e, n, heS, hlastS, hlastN, hue, hch⟩ := toUpdate_mem_char S N up hup
  have heid : e.id = r0.id := by rw [hue] at hcid; exact hcid
  have he : e = r0 := List.inj_on_of_nodup_map hids heS hr0 heid
  subst he
  rw [hlastN] at hnw
  have hn : n = nw := Option.some_injective _ hnw
  rw [hn] at hch
  rw [hun] at hch
  exact absurd hch (by simp)

/-- A list whose filtered tail ends in `v` satisfies the predicate
somewhere. -/
lemma any_of_filter_getLast {α : Type} (xs : List α) (c : α → Bool) (v : α)
    (h : (xs.filter c).getLast? = some v) : xs.any c = true := by
  have hv := getLast?_mem h
  obtain ⟨h1, h2⟩ := List.mem_filter.mp hv
  exact List.any_eq_true.mpr ⟨v, h1, h2⟩

/-- A filtered list with a member has a last element. -/
lemma filter_getLast_isSome {α : Type} (xs : List α) (c : α → Bool) (v : α)
    (hv : v ∈ xs) (hc : c v = true) :
    ∃ w, (xs.filter c).getLast? = some w := by
  have hmem : v ∈ xs.filter c := List.mem_filter.mpr ⟨hv, hc⟩
  cases hl : (xs.filter c).getLast? with
  | none =>
    rw [List.getLast?_eq_none_iff] at hl
    rw [hl] at hmem
    simp at hmem
  | some w => exact ⟨w, rfl⟩

/-- A successful `map.get` exhibits the entry. -/
lemma mem_of_jsMapGet {α : Type} {m : List (String × α)} {k : String} {v : α}
    (h : jsMapGet m k = some v) : (k, v) ∈ m := by
  unfold jsMapGet at h
  cases hf : m.find? (fun p => p.1 == k) with
  | none => rw [hf] at h; simp at h
  | some q =>
    rw [hf] at h
    have hq2 : q.2 = v := by simpa using h
    have hq1 : q.1 = k := by simpa using List.find?_some hf
    have : q = (k, v) := Prod.ext hq1 hq2
    rw [← this]
    exact List.mem_of_find?_eq_some hf

/-- After a reconciliation run, every stored row agrees with the last
fresh result of its key on all five checked fields (first run's state `S`
with pairwise-distinct keys and ids, fresh insert ids, and fresh results
with defined optional fields and truthy details). -/
lemma rows2_fields (S : List StoredResult) (N : List NewResult)
    (scanId now nextId : Nat)
    (hkeys : (S.map StoredResult.key).Nodup)
    (hids : (S.map (fun e => e.id)).Nodup)
    (hfresh : ∀ e ∈ S, e.id < nextId)
    (hdef : ∀ n ∈ N, n.help ≠ none ∧ n.impact ≠ none ∧ n.elementPath ≠ none ∧
      ∃ j, n.details = some j ∧ jsonTruthy j = true) :
    ∀ r' ∈ applyRescanDiff scanId now nextId S (computeRescanDiff S N),
      ∃ nw, (N.filter (fun m => m.key == r'.key)).getLast? = some nw ∧
        (computePatch r' nw).isUnchanged = true := by
  unfold applyRescanDiff
  rw [applyUpdatesById_eq_map]
  intro r' hr'
  obtain ⟨r0, hr0, hfeq⟩ := List.mem_map.mp hr'
  rw [← hfeq, foldPatch_key]
  rcases List.mem_append.mp hr0 with hsv | hins
  · have hmatch := survivor_matched S N hkeys r0 hsv
    have hr0S : r0 ∈ S := (List.mem_filter.mp hsv).1
    obtain ⟨n0, hn0N, hn0k⟩ := List.any_eq_true.mp hmatch
    obtain ⟨nw, hnw⟩ := filter_getLast_isSome N (fun m => m.key == r0.key) n0 hn0N hn0k
    have hnwN : nw ∈ N := (List.mem_filter.mp (getLast?_mem hnw)).1
    obtain ⟨hh, hi, he, hd⟩ := hdef nw hnwN
    by_cases hun : (computePatch r0 nw).isUnchanged
    · have hfr : (computeRescanDiff S N).toUpdate.foldl
          (fun acc up => if acc.id == up.1 then applyPatch now acc up.2 else acc) r0 = r0 :=
        foldPatch_of_not_mem now _ _ (no_update_entry_of_unchanged S N hids r0 hr0S nw hnw hun)
      rw [hfr]
      exact ⟨nw, hnw, hun⟩
    · have hchf : (computePatch r0 nw).isUnchanged = false := bool_eq_false hun
      have hmem : (r0.id, computePatch r0 nw) ∈ (computeRescanDiff S N).toUpdate := by
        simp only [computeRescanDiff]
        refine List.mem_filterMap.mpr ⟨(r0.key, r0), ?_, ?_⟩
        · rw [buildKeyMap_eq_map_of_nodup _ _ hkeys]
          exact List.mem_map_of_mem _ hr0S
        · rw [buildKeyMap_get]
          have hflt : (List.filter (fun m => m.key == r0.key) N).getLast? = some nw := hnw
          rw [hflt]
          simp [hchf]
      have hfr : (computeRescanDiff S N).toUpdate.foldl
          (fun acc up => if acc.id == up.1 then applyPatch now acc up.2 else acc) r0
            = applyPatch now r0 (computePatch r0 nw) :=
        foldPatch_single now _ _ _ hmem (toUpdate_fst_pairwise S N hids)
      rw [hfr]
      exact ⟨nw, hnw, computePatch_applyPatch_unchanged now r0 nw hh hi he hd⟩
  · obtain ⟨n, hnAdd, idv, hidv, heq⟩ :=
      insertRows_mem_char scanId now (computeRescanDiff S N).toAdd nextId r0 hins
    subst heq
    obtain ⟨hlast, -⟩ := toAdd_mem_char S N n hnAdd
    have hnN : n ∈ N := (List.mem_filter.mp (getLast?_mem hlast)).1
    obtain ⟨hh, hi, he, hd⟩ := hdef n hnN
    have hfr : (computeRescanDiff S N).toUpdate.foldl
        (fun acc up => if acc.id == up.1 then applyPatch now acc up.2 else acc)
          (insertRowFromNew scanId idv now n) = insertRowFromNew scanId idv now n := by
      apply foldPatch_of_not_mem
      intro up hup
      obtain ⟨e, n2, heS, -, -, hue, -⟩ := toUpdate_mem_char S N up hup
      have hup1 : up.1 = e.id := by rw [hue]
      rw [hup1]
      have h1 : e.id < nextId := hfresh e heS
      have h2 : (insertRowFromNew scanId idv now n).id = idv := rfl
      rw [h2]
      omega
    rw [hfr, insertRowFromNew_key]
    exact ⟨n, hlast, computePatch_insert_unchanged scanId idv now n hh hi he hd⟩

/-- After a reconciliation run, every fresh result's key is present among
the stored rows. -/
lemma rows2_cover (S : List StoredResult) (N : List NewResult)
    (scanId now nextId : Nat)
    (hids : (S.map (fun e => e.id)).Nodup) :
    ∀ n ∈ N, ∃ r' ∈ applyRescanDiff scanId now nextId S (computeRescanDiff S N),
      r'.key = n.key := by
  unfold applyRescanDiff
  rw [applyUpdatesById_eq_map]
  intro n hn
  by_cases hmatch : (S.any (fun e => e.key == n.key)) = true
  · obtain ⟨e, heS, hek⟩ := List.any_eq_true.mp hmatch
    have hekey : e.key = n.key := by simpa using hek
    have hmatchN : (N.any (fun m => m.key == e.key)) = true :=
      List.any_eq_true.mpr ⟨n, hn, by rw [hekey]; simp⟩
    have hsv := survives_of_matched S N hids e heS hmatchN
    refine ⟨_, List.mem_map_of_mem _ (List.mem_append_left _ hsv), ?_⟩
    rw [foldPatch_key, hekey]
  · have hm' : (S.any (fun e => e.key == n.key)) = false := bool_eq_false hmatch
    obtain ⟨nl, hnl⟩ := filter_getLast_isSome N (fun m => m.key == n.key) n hn (by simp)
    have hkeynl : nl.key = n.key := by
      simpa using (List.mem_filter.mp (getLast?_mem hnl)).2
    have hAdd : nl ∈ (computeRescanDiff S N).toAdd := by
      simp only [computeRescanDiff]
      refine List.mem_filterMap.mpr ⟨(n.key, nl), ?_, ?_⟩
      · apply mem_of_jsMapGet
        rw [buildKeyMap_get]
        exact hnl
      · rw [buildKeyMap_hasKey]
        simp only [hm', Bool.false_eq_true, if_false]
    obtain ⟨r0, hr0, idv, heq⟩ :=
      insertRows_cover scanId now (computeRescanDiff S N).toAdd nextId nl hAdd
    refine ⟨_, List.mem_map_of_mem _ (List.mem_append_right _ hr0), ?_⟩
    rw [foldPatch_key, heq, insertRowFromNew_key, hkeynl]

/-- C4 (amended): reconciliation is idempotent on states with
pairwise-distinct identity keys and ids, fresh insert ids, and fresh
results whose help, impact and elementPath are defined (possibly null) and
whose details is a truthy JSON value: the second run of the same fresh
list against the updated state computes no additions, removals or
updates. -/
theorem c4_idempotent (S : List StoredResult) (N : List NewResult)
    (scanId now nextId : Nat)
    (hkeys : (S.map StoredResult.key).Nodup)
    (hids : (S.map (fun e => e.id)).Nodup)
    (hfresh : ∀ e ∈ S, e.id < nextId)
    (hdef : ∀ n ∈ N, n.help ≠ none ∧ n.impact ≠ none ∧ n.elementPath ≠ none ∧
      ∃ j, n.details = some j ∧ jsonTruthy j = true) :
    computeRescanDiff (applyRescanDiff scanId now nextId S (computeRescanDiff S N)) N
      = { toAdd := [], toRemove := [], toUpdate := [] } := by
  have F1 := rows2_fields S N scanId now nextId hkeys hids hfresh hdef
  have F2 := rows2_cover S N scanId now nextId hids
  set R2 := applyRescanDiff scanId now nextId S (computeRescanDiff S N) with hR2
  have hAdd : (computeRescanDiff R2 N).toAdd = [] := by
    simp only [computeRescanDiff]
    rw [List.filterMap_eq_nil_iff]
    intro p hp
    obtain ⟨hk, hmem⟩ := buildKeyMap_mem NewResult.key N p hp
    obtain ⟨r', hr', hrk⟩ := F2 p.2 hmem
    have hhas : jsMapHasKey (buildKeyMap StoredResult.key R2) p.1 = true := by
      rw [buildKeyMap_hasKey]
      exact List.any_eq_true.mpr ⟨r', hr', by rw [hk]; simp [hrk]⟩
    simp [hhas]
  have hRem : (computeRescanDiff R2 N).toRemove = [] := by
    simp only [computeRescanDiff]
    rw [List.filterMap_eq_nil_iff]
    intro p hp
    obtain ⟨hk, hmem⟩ := buildKeyMap_mem StoredResult.key _ p hp
    obtain ⟨nw, hnw, -⟩ := F1 p.2 hmem
    have hhas : jsMapHasKey (buildKeyMap NewResult.key N) p.1 = true := by
      rw [buildKeyMap_hasKey, hk]
      exact any_of_filter_getLast N _ nw hnw
    simp [hhas]
  have hUpd : (computeRescanDiff R2 N).toUpdate = [] := by
    simp only [computeRescanDiff]
    rw [List.filterMap_eq_nil_iff]
    intro p hp
    obtain ⟨hk, hmem⟩ := buildKeyMap_mem StoredResult.key _ p hp
    obtain ⟨nw, hnw, hun⟩ := F1 p.2 hmem
    rw [buildKeyMap_get, hk, hnw]
    simp [hun]
  calc computeRescanDiff R2 N
      = { toAdd := (computeRescanDiff R2 N).toAdd,
          toRemove := (computeRescanDiff R2 N).toRemove,
          toUpdate := (computeRescanDiff R2 N).toUpdate } := rfl
    _ = { toAdd := [], toRemove := [], toUpdate := [] } := by rw [hAdd, hRem, hUpd]

/-- Stored row used by the C4 witness. -/
def c4WRow : StoredResult :=
  { id := 41, scanId := 7, url := "https://e.example", message := "Missing alt",
    element := some "<img>", severity := "critical", impact := none,
    help := some "old", tags := ["wcag2aa"], elementPath := none,
    details := emptyJsonObject, createdAt := 1, updatedAt := 1 }

/-- Matched fresh result with defined fields and truthy details. -/
def c4WNew1 : NewResult :=
  { url := "https://e.example", message := "Missing alt", element := some (some "<img>"),
    severity := "critical", impact := some none, help := some (some "new"),
    tags := ["wcag2aa"], elementPath := some none, details := some emptyJsonObject,
    createdAt := 3 }

/-- Unmatched fresh result with defined fields and truthy details. -/
def c4WNew2 : NewResult :=
  { url := "https://e.example", message := "Low contrast", element := some (some "<p>"),
    severity := "moderate", impact := some none, help := some none,
    tags := ["wcag2aa"], elementPath := some none, details := some emptyJsonObject,
    createdAt := 3 }

/-- Witness for the amended C4: the second run of the same fresh list
against the reconciled state computes an empty diff. -/
theorem c4_idempotent_witness :
    computeRescanDiff
        (applyRescanDiff 7 4 100 [c4WRow] (computeRescanDiff [c4WRow] [c4WNew1, c4WNew2]))
        [c4WNew1, c4WNew2]
      = { toAdd := [], toRemove := [], toUpdate := [] } ∧
    (computeRescanDiff [c4WRow] [c4WNew1, c4WNew2]).toAdd ≠ [] :=
  ⟨c4_idempotent [c4WRow] [c4WNew1, c4WNew2] 7 4 100 (by decide) (by decide)
      (by decide)
      (by
        intro n hn
        rcases List.mem_cons.mp hn with h | h
        · subst h
          exact ⟨by decide, by decide, by decide, emptyJsonObject, by decide, by decide⟩
        · rcases List.mem_singleton.mp h with h'
          subst h'
          exact ⟨by decide, by decide, by decide, emptyJsonObject, by decide, by decide⟩),
    by decide⟩

/-! ## Claim C9: the aggregated results route -/

lemma lexLe_total : ∀ a b : List Char, lexLe a b = true ∨ lexLe b a = true := by
  intro a
  induction a with
  | nil => intro b; exact Or.inl rfl
  | cons x xs ih =>
    intro b
    cases b with
    | nil => exact Or.inr rfl
    | cons y ys =>
      by_cases hxy : x = y
      · subst hxy
        rcases ih ys with h | h
        · exact Or.inl (by simp [lexLe, h])
        · exact Or.inr (by simp [lexLe, h])
      · rcases lt_trichotomy x y with h | h | h
        · exact Or.inl (by simp [lexLe, hxy, h])
        · exact absurd h hxy
        · have hyx : ¬y = x := fun hc => hxy hc.symm
          exact Or.inr (by simp [lexLe, hyx, h])

lemma lexLe_trans : ∀ a b c : List Char,
    lexLe a b = true → lexLe b c = true → lexLe a c = true := by
  intro a
  induction a with
  | nil => intro b c _ _; rfl
  | cons x xs ih =>
    intro b c hab hbc
    cases b with
    | nil => simp [lexLe] at hab
    | cons y ys =>
      cases c with
      | nil => simp [lexLe] at hbc
      | cons z zs =>
        by_cases hxy : x = y <;> by_cases hyz : y = z
        · subst hxy; subst hyz
          simp only [lexLe, if_pos rfl] at hab hbc ⊢
          exact ih ys zs hab hbc
        · subst hxy
          simp only [lexLe, if_pos rfl] at hab
          simp only [lexLe, hyz, if_neg hyz] at hbc
          simp only [lexLe, hyz, if_neg hyz]
          exact hbc
        · subst hyz
          simp only [lexLe, hxy, if_neg hxy] at hab
          simp only [lexLe, hxy, if_neg hxy]
          exact hab
        · simp only [lexLe, hxy, if_neg hxy] at hab
          simp only [lexLe, hyz, if_neg hyz] at hbc
          have hlt : x < z := lt_trans (of_decide_eq_true hab) (of_decide_eq_true hbc)
          by_cases hxz : x = z
          · exact absurd hxz (by subst hxz; exact fun _ => (lt_irrefl x hlt))
          · simp [lexLe, hxz, hlt]

lemma strLe_total (a b : String) : strLe a b = true ∨ strLe b a = true :=
  lexLe_total a.data b.data

lemma strLe_trans {a b c : String} (h1 : strLe a b = true) (h2 : strLe b c = true) :
    strLe a c = true :=
  lexLe_trans a.data b.data c.data h1 h2

lemma resultLe_total (sortBy : String) (a b : StoredResult) :
    resultLe sortBy a b = true ∨ resultLe sortBy b a = true := by
  unfold resultLe
  by_cases hs : (sortBy == "severity") = true
  · rw [if_pos hs, if_pos hs]
    by_cases hr : (severityRank a.severity == severityRank b.severity) = true
    · have hr' : (severityRank b.severity == severityRank a.severity) = true := by
        simp only [beq_iff_eq] at hr ⊢
        exact hr.symm
      rw [if_pos hr, if_pos hr']
      rcases Nat.le_total b.createdAt a.createdAt with h | h
      · exact Or.inl (by simpa using h)
      · exact Or.inr (by simpa using h)
    · have hne : severityRank a.severity ≠ severityRank b.severity := by
        simpa using hr
      have hne' : severityRank b.severity ≠ severityRank a.severity :=
        fun hc => hne hc.symm
      rw [if_neg (by simpa using hne), if_neg (by simpa using hne')]
      rcases Nat.lt_or_ge (severityRank b.severity) (severityRank a.severity) with h | h
      · exact Or.inl (by simpa using h)
      · have : severityRank a.severity < severityRank b.severity :=
          Nat.lt_of_le_of_ne h hne
        exact Or.inr (by simpa using this)
  · rw [if_neg hs, if_neg hs]
    by_cases hu : (sortBy == "url") = true
    · rw [if_pos hu, if_pos hu]
      exact strLe_total a.url b.url
    · rw [if_neg hu, if_neg hu]
      rcases Nat.le_total b.createdAt a.createdAt with h | h
      · exact Or.inl (by simpa using h)
      · exact Or.inr (by simpa using h)

lemma resultLe_trans (sortBy : String) (a b c : StoredResult)
    (h1 : resultLe sortBy a b = true) (h2 : resultLe sortBy b c = true) :
    resultLe sortBy a c = true := by
  unfold resultLe at h1 h2 ⊢
  by_cases hs : (sortBy == "severity") = true
  · rw [if_pos hs] at h1 h2 ⊢
    by_cases hab : (severityRank a.severity == severityRank b.severity) = true <;>
      by_cases hbc : (severityRank b.severity == severityRank c.severity) = true
    all_goals
      simp only [beq_iff_eq] at hab hbc
      first
      | (rw [if_pos (by simpa using hab)] at h1)
      | (rw [if_neg (by simpa using hab)] at h1)
    all_goals
      first
      | (rw [if_pos (by simpa using hbc)] at h2)
      | (rw [if_neg (by simpa using hbc)] at h2)
    all_goals
      by_cases hac : (severityRank a.severity == severityRank c.severity) = true
    all_goals
      simp only [beq_iff_eq] at hac
    all_goals
      first
      | (rw [if_pos (by simpa using hac)])
      | (rw [if_neg (by simpa using hac)])
    all_goals simp only [decide_eq_true_eq] at h1 h2 ⊢
    all_goals omega
  · rw [if_neg hs] at h1 h2 ⊢
    by_cases hu : (sortBy == "url") = true
    · rw [if_pos hu] at h1 h2 ⊢
      exact strLe_trans h1 h2
    · rw [if_neg hu] at h1 h2 ⊢
      simp only [decide_eq_true_eq] at h1 h2 ⊢
      omega

/-- A member of `map.set m k v` is the new entry or an old entry with a
different key. -/
lemma jsMapSet_mem_strong {α : Type} {m : List (String × α)} {k : String} {v : α}
    {q : String × α} (h : q ∈ jsMapSet m k v) : (q ∈ m ∧ q.1 ≠ k) ∨ q = (k, v) := by
  unfold jsMapSet at h
  by_cases hm : m.any (fun p => p.1 == k)
  · rw [if_pos hm] at h
    obtain ⟨p, hp, hpq⟩ := List.mem_map.mp h
    by_cases hc : (p.1 == k) = true
    · right; rw [if_pos hc] at hpq; exact hpq.symm
    · left
      rw [if_neg hc] at hpq
      subst hpq
      exact ⟨hp, by simpa using hc⟩
  · rw [if_neg hm] at h
    rcases List.mem_append.mp h with h1 | h2
    · left
      refine ⟨h1, ?_⟩
      intro hc
      exact hm (List.any_eq_true.mpr ⟨q, h1, by simp [hc]⟩)
    · right; exact List.mem_singleton.mp h2

/-- Old entries with a different key survive `map.set`. -/
lemma mem_jsMapSet_of_ne {α : Type} {m : List (String × α)} {k : String} {v : α}
    {p : String × α} (hp : p ∈ m) (hne : p.1 ≠ k) : p ∈ jsMapSet m k v := by
  unfold jsMapSet
  by_cases hm : m.any (fun q => q.1 == k)
  · rw [if_pos hm]
    refine List.mem_map.mpr ⟨p, hp, ?_⟩
    rw [if_neg (by simpa using hne)]
  · rw [if_neg hm]
    exact List.mem_append_left _ hp

/-- `map.get` right after `map.set` on the same key. -/
lemma jsMapGet_jsMapSet_self {α : Type} (m : List (String × α)) (k : String) (v : α) :
    jsMapGet (jsMapSet m k v) k = some v := by
  rw [jsMapGet_jsMapSet, if_pos rfl]

/-- One step of the route's dedup map keeps the invariant: entries pair a
seen result with its key and dominate every seen result of that key, every
seen key has an entry, and keys stay pairwise distinct. -/
lemma dedupStep_inv (m : List (String × StoredResult)) (seen : List StoredResult)
    (r : StoredResult)
    (h1 : ∀ p ∈ m, p.1 = p.2.key ∧ p.2 ∈ seen ∧
      ∀ q ∈ seen, q.key = p.2.key → q.createdAt ≤ p.2.createdAt)
    (h2 : ∀ q ∈ seen, ∃ p ∈ m, p.1 = q.key)
    (h3 : (m.map Prod.fst).Nodup) :
    (∀ p ∈ dedupStep m r, p.1 = p.2.key ∧ p.2 ∈ seen ++ [r] ∧
      ∀ q ∈ seen ++ [r], q.key = p.2.key → q.createdAt ≤ p.2.createdAt) ∧
    (∀ q ∈ seen ++ [r], ∃ p ∈ dedupStep m r, p.1 = q.key) ∧
    ((dedupStep m r).map Prod.fst).Nodup := by
  cases hget : jsMapGet m r.key with
  | none =>
    have hstep : dedupStep m r = m ++ [(r.key, r)] := by
      unfold dedupStep
      rw [hget]
    have hnone : ∀ p ∈ m, p.1 ≠ r.key := by
      intro p hp hc
      unfold jsMapGet at hget
      rcases hf : m.find? (fun q => q.1 == r.key) with _ | q
      · exact absurd (List.find?_eq_none.mp hf p hp) (by simp [hc])
      · rw [hf] at hget; simp at hget
    have hseen : ∀ q ∈ seen, q.key ≠ r.key := by
      intro q hq hc
      obtain ⟨p, hp, hpk⟩ := h2 q hq
      exact hnone p hp (hpk.trans hc)
    rw [hstep]
    refine ⟨?_, ?_, ?_⟩
    · intro p hp
      rcases List.mem_append.mp hp with hold | hnew
      · obtain ⟨ha, hb, hc⟩ := h1 p hold
        refine ⟨ha, List.mem_append_left _ hb, ?_⟩
        intro q hq hqk
        rcases List.mem_append.mp hq with hq1 | hq2
        · exact hc q hq1 hqk
        · rw [List.mem_singleton.mp hq2] at hqk
          exact absurd (hqk.trans ha.symm) (fun hc2 => hnone p hold hc2.symm)
      · rw [List.mem_singleton.mp hnew]
        refine ⟨rfl, List.mem_append_right _ (List.mem_singleton.mpr rfl), ?_⟩
        intro q hq hqk
        rcases List.mem_append.mp hq with hq1 | hq2
        · exact absurd hqk (hseen q hq1)
        · rw [List.mem_singleton.mp hq2]
    · intro q hq
      rcases List.mem_append.mp hq with hq1 | hq2
      · obtain ⟨p, hp, hpk⟩ := h2 q hq1
        exact ⟨p, List.mem_append_left _ hp, hpk⟩
      · rw [List.mem_singleton.mp hq2]
        exact ⟨(r.key, r), List.mem_append_right _ (List.mem_singleton.mpr rfl), rfl⟩
    · rw [List.map_append]
      refine List.Nodup.append h3 (List.nodup_singleton _) ?_
      intro a ha hb
      rw [List.map_singleton, List.mem_singleton] at hb
      subst hb
      obtain ⟨p, hp, hpk⟩ := List.mem_map.mp ha
      exact hnone p hp hpk
  | some prev =>
    have hprevmem : (r.key, prev) ∈ m := mem_of_jsMapGet hget
    obtain ⟨hpk, hpseen, hpmax⟩ := h1 (r.key, prev) hprevmem
    by_cases hlt : prev.createdAt < r.createdAt
    · have hstep : dedupStep m r = jsMapSet m r.key r := by
        unfold dedupStep
        rw [hget]
        show (if prev.createdAt < r.createdAt then jsMapSet m r.key r else m)
          = jsMapSet m r.key r
        rw [if_pos hlt]
      rw [hstep]
      refine ⟨?_, ?_, ?_⟩
      · intro p hp
        rcases jsMapSet_mem_strong hp with ⟨hold, hne⟩ | hnew
        · obtain ⟨ha, hb, hc⟩ := h1 p hold
          refine ⟨ha, List.mem_append_left _ hb, ?_⟩
          intro q hq hqk
          rcases List.mem_append.mp hq with hq1 | hq2
          · exact hc q hq1 hqk
          · rw [List.mem_singleton.mp hq2] at hqk
            exact absurd (hqk.trans ha.symm).symm hne
        · rw [hnew]
          refine ⟨rfl, List.mem_append_right _ (List.mem_singleton.mpr rfl), ?_⟩
          intro q hq hqk
          rcases List.mem_append.mp hq with hq1 | hq2
          · have hle : q.createdAt ≤ prev.createdAt := hpmax q hq1 (by rw [hqk]; exact hpk)
            show q.createdAt ≤ r.createdAt
            omega
          · rw [List.mem_singleton.mp hq2]
      · intro q hq
        rcases List.mem_append.mp hq with hq1 | hq2
        · obtain ⟨p, hp, hpk2⟩ := h2 q hq1
          by_cases hc : p.1 = r.key
          · exact ⟨(r.key, r), mem_of_jsMapGet (jsMapGet_jsMapSet_self m r.key r),
              by rw [← hc, hpk2]⟩
          · exact ⟨p, mem_jsMapSet_of_ne hp hc, hpk2⟩
        · rw [List.mem_singleton.mp hq2]
          exact ⟨(r.key, r), mem_of_jsMapGet (jsMapGet_jsMapSet_self m r.key r), rfl⟩
      · rw [jsMapSet_keys]
        have hany : m.any (fun p => p.1 == r.key) = true :=
          List.any_eq_true.mpr ⟨(r.key, prev), hprevmem, by simp⟩
        rw [if_pos hany]
        exact h3
    · have hstep : dedupStep m r = m := by
        unfold dedupStep
        rw [hget]
        show (if prev.createdAt < r.createdAt then jsMapSet m r.key r else m) = m
        rw [if_neg hlt]
      rw [hstep]
      refine ⟨?_, ?_, h3⟩
      · intro p hp
        obtain ⟨ha, hb, hc⟩ := h1 p hp
        refine ⟨ha, List.mem_append_left _ hb, ?_⟩
        intro q hq hqk
        rcases List.mem_append.mp hq with hq1 | hq2
        · exact hc q hq1 hqk
        · rw [List.mem_singleton.mp hq2] at hqk ⊢
          have hpr : p.1 = r.key := by rw [ha, ← hqk]
          have hpdet : p = (r.key, prev) := by
            have h5 : jsMapGet m p.1 = some p.2 := jsMapGet_of_mem_nodup h3 hp
            rw [hpr, hget] at h5
            exact Prod.ext hpr (Option.some_injective _ h5).symm
          have hp2 : p.2 = prev := by rw [hpdet]
          rw [hp2]
          omega
      · intro q hq
        rcases List.mem_append.mp hq with hq1 | hq2
        · exact h2 q hq1
        · rw [List.mem_singleton.mp hq2]
          exact ⟨(r.key, prev), hprevmem, rfl⟩

/-- The dedup fold maintains its invariant over the whole input. -/
lemma dedupFold_inv :
    ∀ (rs : List StoredResult) (m : List (String × StoredResult)) (seen : List StoredResult),
      (∀ p ∈ m, p.1 = p.2.key ∧ p.2 ∈ seen ∧
        ∀ q ∈ seen, q.key = p.2.key → q.createdAt ≤ p.2.createdAt) →
      (∀ q ∈ seen, ∃ p ∈ m, p.1 = q.key) →
      ((m.map Prod.fst).Nodup) →
      (∀ p ∈ rs.foldl dedupStep m, p.1 = p.2.key ∧ p.2 ∈ seen ++ rs ∧
        ∀ q ∈ seen ++ rs, q.key = p.2.key → q.createdAt ≤ p.2.createdAt) ∧
      (∀ q ∈ seen ++ rs, ∃ p ∈ rs.foldl dedupStep m, p.1 = q.key) ∧
      (((rs.foldl dedupStep m).map Prod.fst).Nodup) := by
  intro rs
  induction rs with
  | nil =>
    intro m seen h1 h2 h3
    rw [List.foldl_nil, List.append_nil]
    exact ⟨h1, h2, h3⟩
  | cons r rest ih =>
    intro m seen h1 h2 h3
    obtain ⟨g1, g2, g3⟩ := dedupStep_inv m seen r h1 h2 h3
    obtain ⟨k1, k2, k3⟩ := ih (dedupStep m r) (seen ++ [r]) g1 g2 g3
    rw [List.foldl_cons]
    refine ⟨?_, ?_, k3⟩
    · intro p hp
      obtain ⟨a1, a2, a3⟩ := k1 p hp
      rw [List.append_assoc] at a2 a3
      exact ⟨a1, by simpa using a2, by simpa using a3⟩
    · intro q hq
      apply k2
      rw [List.append_assoc]
      simpa using hq

/-- The route's deduplication: each kept result is a most-recent member of
its key class, keys are pairwise distinct, and every key survives. -/
lemma dedupByKey_spec (rs : List StoredResult) :
    (∀ r' ∈ dedupByKey rs, r' ∈ rs ∧
      ∀ r ∈ rs, r.key = r'.key → r.createdAt ≤ r'.createdAt) ∧
    ((dedupByKey rs).map StoredResult.key).Nodup ∧
    (∀ r ∈ rs, ∃ r' ∈ dedupByKey rs, r'.key = r.key) := by
  obtain ⟨h1, h2, h3⟩ := dedupFold_inv rs [] []
    (by intro p hp; simp at hp) (by intro q hq; simp at hq) List.nodup_nil
  refine ⟨?_, ?_, ?_⟩
  · intro r' hr'
    obtain ⟨p, hp, hps⟩ := List.mem_map.mp hr'
    obtain ⟨a1, a2, a3⟩ := h1 p hp
    rw [← hps]
    exact ⟨by simpa using a2, fun r hr hk => a3 r (by simpa using hr) hk⟩
  · have : (dedupByKey rs).map StoredResult.key
        = (rs.foldl dedupStep []).map Prod.fst := by
      unfold dedupByKey
      rw [List.map_map]
      apply List.map_congr_left
      intro p hp
      exact ((h1 p hp).1).symm
    rw [this]
    exact h3
  · intro r hr
    obtain ⟨p, hp, hpk⟩ := h2 r (by simpa using hr)
    refine ⟨p.2, List.mem_map_of_mem _ hp, ?_⟩
    rw [← (h1 p hp).1, hpk]

/-- Membership in the project's aggregated result pool. -/
lemma allProjectResults_mem (rows : List ScanRow) (pid : Nat) :
    ∀ r : StoredResult, r ∈ allProjectResults rows pid ↔
      ∃ row ∈ rows, row.scan.projectId = pid ∧ row.scan.status = "completed" ∧
        r ∈ row.results := by
  intro r
  unfold allProjectResults completedScanRows
  rw [List.mem_flatten]
  constructor
  · rintro ⟨l, hl, hrl⟩
    obtain ⟨row, hrow, hres⟩ := List.mem_map.mp hl
    have hrow' : row ∈ (rows.filter (fun row =>
        row.scan.projectId == pid && row.scan.status == "completed")) :=
      (List.perm_insertionSort _ _).mem_iff.mp hrow
    obtain ⟨hmem, hcond⟩ := List.mem_filter.mp hrow'
    simp only [Bool.and_eq_true, beq_iff_eq] at hcond
    exact ⟨row, hmem, hcond.1, hcond.2, by rw [hres]; exact hrl⟩
  · rintro ⟨row, hmem, hpid, hst, hr⟩
    refine ⟨row.results, List.mem_map_of_mem _ ?_, hr⟩
    apply (List.perm_insertionSort _ _).mem_iff.mpr
    exact List.mem_filter.mpr ⟨hmem, by simp [hpid, hst]⟩

/-- Membership in the filtered result list. -/
lemma filteredProjectResults_mem (rows : List ScanRow) (pid : Nat)
    (search : String) (sev comp : List String) :
    ∀ r : StoredResult, r ∈ filteredProjectResults rows pid search sev comp ↔
      r ∈ dedupByKey (allProjectResults rows pid) ∧
      (search == "" || passesSearch (lcStr search) r) = true ∧
      (sev.isEmpty || sev.contains r.severity) = true ∧
      (comp.isEmpty || r.tags.any (fun t => comp.contains t)) = true := by
  intro r
  unfold filteredProjectResults
  by_cases hg1 : (search == "") = true <;>
    by_cases hg2 : sev.isEmpty = true <;>
      by_cases hg3 : comp.isEmpty = true <;>
        simp [hg1, hg2, hg3, List.mem_filter, and_assoc, and_comm, and_left_comm]

/-- C9: the results route echoes page and pageSize, reports the filtered
total and its ceiling page count, returns the requested slice of the
sorted list (a sorted permutation of the filtered results), computes the
summary from the filtered results, deduplicates by identity key keeping a
most-recent representative per key, aggregates exactly the completed
scans' results of the project, and filters by search, severity and
compliance. -/
theorem c9_results_route (rows : List ScanRow) (pid page pageSize : Nat)
    (sortBy search : String) (sev comp : List String)
    (hpage : 1 ≤ page) (hps : 1 ≤ pageSize) :
    (getProjectResults rows pid page pageSize sortBy search sev comp).page = page ∧
    (getProjectResults rows pid page pageSize sortBy search sev comp).pageSize = pageSize ∧
    (getProjectResults rows pid page pageSize sortBy search sev comp).total
      = (filteredProjectResults rows pid search sev comp).length ∧
    (getProjectResults rows pid page pageSize sortBy search sev comp).totalPages
      = ((filteredProjectResults rows pid search sev comp).length + pageSize - 1) / pageSize ∧
    (getProjectResults rows pid page pageSize sortBy search sev comp).results
      = ((sortedProjectResults rows pid sortBy search sev comp).drop
          ((page - 1) * pageSize)).take pageSize ∧
    (getProjectResults rows pid page pageSize sortBy search sev comp).results.length
      ≤ pageSize ∧
    (getProjectResults rows pid page pageSize sortBy search sev comp).summary
      = { critical := ((filteredProjectResults rows pid search sev comp).filter
            (fun r => r.severity == "critical")).length
          serious := ((filteredProjectResults rows pid search sev comp).filter
            (fun r => r.severity == "serious")).length
          moderate := ((filteredProjectResults rows pid search sev comp).filter
            (fun r => r.severity == "moderate")).length
          minor := ((filteredProjectResults rows pid search sev comp).filter
            (fun r => r.severity == "minor")).length
          total := (filteredProjectResults rows pid search sev comp).length } ∧
    (sortedProjectResults rows pid sortBy search sev comp).Perm
      (filteredProjectResults rows pid search sev comp) ∧
    (sortedProjectResults rows pid sortBy search sev comp).Pairwise
      (fun a b => resultLe sortBy a b = true) ∧
    (∀ r' ∈ dedupByKey (allProjectResults rows pid),
      r' ∈ allProjectResults rows pid ∧
      ∀ r ∈ allProjectResults rows pid, r.key = r'.key → r.createdAt ≤ r'.createdAt) ∧
    ((dedupByKey (allProjectResults rows pid)).map StoredResult.key).Nodup ∧
    (∀ r ∈ allProjectResults rows pid,
      ∃ r' ∈ dedupByKey (allProjectResults rows pid), r'.key = r.key) ∧
    (∀ r : StoredResult, r ∈ allProjectResults rows pid ↔
      ∃ row ∈ rows, row.scan.projectId = pid ∧ row.scan.status = "completed" ∧
        r ∈ row.results) ∧
    (∀ r : StoredResult, r ∈ filteredProjectResults rows pid search sev comp ↔
      r ∈ dedupByKey (allProjectResults rows pid) ∧
      (search == "" || passesSearch (lcStr search) r) = true ∧
      (sev.isEmpty || sev.contains r.severity) = true ∧
      (comp.isEmpty || r.tags.any (fun t => comp.contains t)) = true) := by
  obtain ⟨hd1, hd2, hd3⟩ := dedupByKey_spec (allProjectResults rows pid)
  have hperm : (sortedProjectResults rows pid sortBy search sev comp).Perm
      (filteredProjectResults rows pid search sev comp) :=
    List.perm_insertionSort _ _
  have hsorted : (sortedProjectResults rows pid sortBy search sev comp).Pairwise
      (fun a b => resultLe sortBy a b = true) := by
    haveI : IsTotal StoredResult (fun a b => resultLe sortBy a b = true) :=
      ⟨resultLe_total sortBy⟩
    haveI : IsTrans StoredResult (fun a b => resultLe sortBy a b = true) :=
      ⟨resultLe_trans sortBy⟩
    exact List.sorted_insertionSort _ _
  by_cases hE : (completedScanRows rows pid).isEmpty = true
  · have hC : completedScanRows rows pid = [] := List.isEmpty_iff.mp hE
    have hAll : allProjectResults rows pid = [] := by
      unfold allProjectResults
      rw [hC]
      rfl
    have hD : dedupByKey (allProjectResults rows pid) = [] := by rw [hAll]; rfl
    have hF : filteredProjectResults rows pid search sev comp = [] := by
      unfold filteredProjectResults
      rw [hD]
      by_cases hg1 : (search == "") = true <;>
        by_cases hg2 : sev.isEmpty = true <;>
          by_cases hg3 : comp.isEmpty = true <;>
            simp [hg1, hg2, hg3]
    have hS : sortedProjectResults rows pid sortBy search sev comp = [] := by
      unfold sortedProjectResults
      rw [hF]
      rfl
    have hresp : getProjectResults rows pid page pageSize sortBy search sev comp =
        { results := [], summary := ⟨0, 0, 0, 0, 0⟩, total := 0
          page := page, pageSize := pageSize, totalPages := 0 } := by
      unfold getProjectResults
      rw [if_pos hE]
    rw [hresp, hF, hS]
    refine ⟨rfl, rfl, rfl, ?_, by simp, by simp, by simp, by simpa [hF, hS] using hperm,
      by simpa [hS] using hsorted, hd1, hd2, hd3,
      allProjectResults_mem rows pid, ?_⟩
    · have : (0 + pageSize - 1) / pageSize = 0 := Nat.div_eq_of_lt (by omega)
      simpa using this.symm
    · intro r
      rw [← hF]
      exact filteredProjectResults_mem rows pid search sev comp r
  · have hE' : (completedScanRows rows pid).isEmpty = false := bool_eq_false hE
    have hresp : getProjectResults rows pid page pageSize sortBy search sev comp =
        { results := ((sortedProjectResults rows pid sortBy search sev comp).drop
            ((page - 1) * pageSize)).take pageSize
          summary :=
            { critical := ((filteredProjectResults rows pid search sev comp).filter
                (fun r => r.severity == "critical")).length
              serious := ((filteredProjectResults rows pid search sev comp).filter
                (fun r => r.severity == "serious")).length
              moderate := ((filteredProjectResults rows pid search sev comp).filter
                (fun r => r.severity == "moderate")).length
              minor := ((filteredProjectResults rows pid search sev comp).filter
                (fun r => r.severity == "minor")).length
              total := (filteredProjectResults rows pid search sev comp).length }
          total := (filteredProjectResults rows pid search sev comp).length
          page := page
          pageSize := pageSize
          totalPages := ((filteredProjectResults rows pid search sev comp).length
            + pageSize - 1) / pageSize } := by
      unfold getProjectResults
      rw [if_neg (by simp [hE'])]
    rw [hresp]
    exact ⟨rfl, rfl, rfl, rfl, rfl, List.length_take_le _ _, rfl, hperm, hsorted,
      hd1, hd2, hd3, allProjectResults_mem rows pid,
      filteredProjectResults_mem rows pid search sev comp⟩

/-- A completed scan used by the C9 witness. -/
def c9ScanA : Scan :=
  { id := 1, projectId := 1, url := "https://a.example", status := "completed",
    startedAt := some 1, completedAt := some 2, error := none, totalIssues := some 2,
    criticalIssues := some 1, seriousIssues := some 0, moderateIssues := some 0,
    minorIssues := some 1, analysisMethod := some "simple", createdAt := 2 }

/-- An older completed scan used by the C9 witness. -/
def c9ScanB : Scan :=
  { id := 2, projectId := 1, url := "https://a.example", status := "completed",
    startedAt := some 0, completedAt := some 1, error := none, totalIssues := some 1,
    criticalIssues := some 1, seriousIssues := some 0, moderateIssues := some 0,
    minorIssues := some 0, analysisMethod := some "simple", createdAt := 1 }

/-- The newest critical finding, kept by deduplication. -/
def c9ResCritNew : StoredResult :=
  { id := 100, scanId := 1, url := "https://a.example", message := "Missing alt",
    element := some "<img>", severity := "critical", impact := none, help := none,
    tags := ["wcag2aa"], elementPath := none, details := emptyJsonObject,
    createdAt := 5, updatedAt := 5 }

/-- A minor finding with a distinct key. -/
def c9ResMinor : StoredResult :=
  { id := 101, scanId := 1, url := "https://a.example", message := "Small text",
    element := some "<p>", severity := "minor", impact := none, help := none,
    tags := ["best-practice"], elementPath := none, details := emptyJsonObject,
    createdAt := 3, updatedAt := 3 }

/-- An older duplicate of the critical finding, dropped by deduplication. -/
def c9ResCritOld : StoredResult :=
  { id := 102, scanId := 2, url := "https://a.example", message := "Missing alt",
    element := some "<img>", severity := "critical", impact := none, help := none,
    tags := ["wcag2aa"], elementPath := none, details := emptyJsonObject,
    createdAt := 2, updatedAt := 2 }

/-- The scan table of the C9 witness. -/
def c9Rows : List ScanRow :=
  [{ scan := c9ScanA, results := [c9ResCritNew, c9ResMinor] },
   { scan := c9ScanB, results := [c9ResCritOld] }]

/-- Witness for C9 at a concrete store: two results survive deduplication,
the severity sort puts the critical finding first, the old duplicate is
dropped, and total/totalPages/summary are as computed. -/
theorem c9_results_route_witness :
    (getProjectResults c9Rows 1 1 10 "severity" "" [] []).total = 2 ∧
    (getProjectResults c9Rows 1 1 10 "severity" "" [] []).totalPages = 1 ∧
    (getProjectResults c9Rows 1 1 10 "severity" "" [] []).page = 1 ∧
    (getProjectResults c9Rows 1 1 10 "severity" "" [] []).results
      = [c9ResCritNew, c9ResMinor] ∧
    (getProjectResults c9Rows 1 1 10 "severity" "" [] []).summary.critical = 1 ∧
    (getProjectResults c9Rows 1 1 10 "severity" "" [] []).summary.minor = 1 ∧
    (sortedProjectResults c9Rows 1 "severity" "" [] []).Perm
      (filteredProjectResults c9Rows 1 "" [] []) ∧
    (sortedProjectResults c9Rows 1 "severity" "" [] []).Pairwise
      (fun a b => resultLe "severity" a b = true) := by
  obtain ⟨h1, h2, h3, h4, h5, h6, h7, h8, h9, -⟩ :=
    c9_results_route c9Rows 1 1 10 "severity" "" [] [] (by decide) (by decide)
  refine ⟨?_, ?_, h1, ?_, ?_, ?_, h8, h9⟩
  · rw [h3]
    decide
  · rw [h4]
    decide
  · rw [h5]
    decide
  · rw [h7]
    decide
  · rw [h7]
    decide
